import Mathlib

/-!
Verification model of the Penny content-ingestion and semantic-search service.

The TypeScript sources are embedded shallowly:
* texts are `List Char`; the JS string operations used by the code
  (`trim`, `replace(/\s+/g, ' ')`, `substring`, `split('\n')`, `lastIndexOf`)
  are modelled directly on lists;
* the chunking scan loop of `chunkText` (src/src/lib/ai/embeddings.ts) is a
  fuel-indexed step function, because the JS `while` loop does not terminate
  for every option choice;
* the database is a pair of lists of rows; the repository operations of
  src/src/controllers/search.controller.ts (contentRepository) are functions
  on that state; the pgvector cosine-distance operator and the external
  extraction / embedding providers are capability parameters;
* machine integers: all the quantities involved (offsets, counters) are
  non-negative in every reachable state of interest, so they are `Nat`;
  the places where JS arithmetic could go negative are noted where they
  are modelled.
-/

namespace Penny

/-- JS whitespace test (the `\s` class and `trim`), restricted to the ASCII
whitespace characters; the Unicode space characters that JS also accepts are
treated identically by every modelled function and are omitted. -/
def jsWhitespace (c : Char) : Bool :=
  c == ' ' || c == '\t' || c == '\n' || c == '\r' ||
    c == Char.ofNat 11 || c == Char.ofNat 12

/-- JS `String.prototype.trim`. -/
def jsTrim (l : List Char) : List Char :=
  ((l.dropWhile jsWhitespace).reverse.dropWhile jsWhitespace).reverse

/-- Helper for `collapseWs`: the `prevWs` flag records whether the previous
character belonged to a whitespace run that has already emitted its space. -/
def collapseWsAux : Bool → List Char → List Char
  | _, [] => []
  | prevWs, c :: rest =>
    if jsWhitespace c then
      if prevWs then collapseWsAux true rest
      else ' ' :: collapseWsAux true rest
    else c :: collapseWsAux false rest

/-- JS `text.replace(/\s+/g, ' ')`: every maximal whitespace run becomes a
single space. -/
def collapseWs (l : List Char) : List Char := collapseWsAux false l

/-- The cleaned text `text.replace(/\s+/g, ' ').trim()` computed at the top of
`chunkText`. -/
def cleanedOf (text : List Char) : List Char := jsTrim (collapseWs text)

/-- JS `substring(a, b)` for `a ≤ b` (every call site passes `a ≤ b`). -/
def sliceList (l : List Char) (a b : Nat) : List Char := (l.take b).drop a

/-- JS `lastIndexOf` of a one-character pattern, as an `Option` (the JS `-1`
is `none`). -/
def lastIndexOf1 (s : List Char) (a : Char) : Option Nat :=
  (List.range s.length).foldl
    (fun acc i => if s[i]? == some a then some i else acc) none

/-- JS `lastIndexOf` of a two-character pattern, as an `Option`. -/
def lastIndexOf2 (s : List Char) (a b : Char) : Option Nat :=
  (List.range s.length).foldl
    (fun acc i => if s[i]? == some a && s[i + 1]? == some b then some i else acc)
    none

/-- A chunk descriptor as produced by `chunkText` / `chunkDocument`
(interface `TextChunk`).  The `section` field of the source is called
`sectionTitle` here because `section` is a Lean keyword. -/
structure TextChunk where
  content : List Char
  chunkIndex : Nat
  startOffset : Nat
  endOffset : Nat
  sectionTitle : Option (List Char)
deriving DecidableEq

/-- The sentence-boundary candidates of one scan step of `chunkText`:
`['. ', '! ', '? ', '\n']` looked up from the right in the search window,
kept when strictly positive (the JS filter `pos > 0` also drops the `-1`
of a missing pattern). -/
def chunkBoundaries (searchText : List Char) : List Nat :=
  (([lastIndexOf2 searchText '.' ' ',
     lastIndexOf2 searchText '!' ' ',
     lastIndexOf2 searchText '?' ' ',
     lastIndexOf1 searchText '\n'].filterMap id).filter (fun i => 0 < i))

/-- The end position chosen by one iteration of the `chunkText` scan loop:
`min (pos + maxChunkSize) len`, moved back to just after the latest sentence
boundary in the last-200-character window when the tentative cut is not at the
end of the text.  (`end0 - 200` is `Math.max`-clamped against `pos` in JS;
truncated `Nat` subtraction gives the same search window.) -/
def chunkEnd (cleaned : List Char) (maxChunkSize pos : Nat) : Nat :=
  let end0 := min (pos + maxChunkSize) cleaned.length
  if end0 < cleaned.length then
    let searchStart := max pos (end0 - 200)
    let searchText := sliceList cleaned searchStart end0
    let bs := (chunkBoundaries searchText).map (fun i => searchStart + i + 1)
    match bs.max? with
    | some m => m
    | none => end0
  else end0

/-- The mutable state of the `chunkText` scan loop: `currentPosition`,
`chunkIndex` and the accumulated `chunks`. -/
structure ChunkState where
  pos : Nat
  idx : Nat
  chunks : List TextChunk
deriving DecidableEq

/-- One iteration of the `while (currentPosition < cleanedText.length)` loop of
`chunkText`: choose the end position, push the trimmed chunk when non-empty,
move to `endPosition - overlapSize`, and force the position to `endPosition`
when it failed to advance past the last pushed chunk's start (the JS guard
compares against `chunks[chunks.length-1]?.startOffset`, which is `undefined`
— and the comparison false — while no chunk has been pushed).  JS can hold a
negative `currentPosition` here exactly when no chunk has been pushed yet and
`overlapSize > endPosition`; truncation to `0` is behaviourally identical
because JS `substring` clamps negative arguments to `0`. -/
def chunkStep (cleaned : List Char) (maxChunkSize overlapSize : Nat)
    (s : ChunkState) : ChunkState :=
  let endP := chunkEnd cleaned maxChunkSize s.pos
  let contentC := jsTrim (sliceList cleaned s.pos endP)
  let chunks' :=
    if 0 < contentC.length then
      s.chunks ++ [⟨contentC, s.idx, s.pos, endP, none⟩]
    else s.chunks
  let idx' := if 0 < contentC.length then s.idx + 1 else s.idx
  let np := endP - overlapSize
  let np' :=
    match chunks'.getLast? with
    | some last => if np ≤ last.startOffset then endP else np
    | none => np
  ⟨np', idx', chunks'⟩

/-- The scan loop of `chunkText`, indexed by fuel; `none` means the JS loop
has not exited within `fuel` iterations. -/
def chunkLoop (cleaned : List Char) (maxChunkSize overlapSize : Nat) :
    Nat → ChunkState → Option (List TextChunk)
  | 0, s => if s.pos < cleaned.length then none else some s.chunks
  | fuel + 1, s =>
    if s.pos < cleaned.length then
      chunkLoop cleaned maxChunkSize overlapSize fuel
        (chunkStep cleaned maxChunkSize overlapSize s)
    else some s.chunks

/-- `chunkText(text, { maxChunkSize, overlapSize })` of
src/src/lib/ai/embeddings.ts.  The loop is given `cleaned.length + 1` fuel,
which is proved sufficient whenever `2 ≤ maxChunkSize`
(`chunkText_total`); a `none` result means the JS loop diverges. -/
def chunkText (text : List Char) (maxChunkSize overlapSize : Nat) :
    Option (List TextChunk) :=
  if (jsTrim text).length = 0 then some []
  else
    let cleaned := cleanedOf text
    if cleaned.length ≤ maxChunkSize then
      some [⟨cleaned, 0, 0, cleaned.length, none⟩]
    else chunkLoop cleaned maxChunkSize overlapSize (cleaned.length + 1) ⟨0, 0, []⟩

/-! ### Section detection (`detectSections` and `SECTION_PATTERNS`)

Each regex of `SECTION_PATTERNS` is hand-compiled to a matcher on the trimmed
line.  The `m`/`g` flags are irrelevant because the matchers are applied to a
single line (no internal newline) with `lastIndex` reset; the `i` flag is
modelled by lowercasing before comparison.  Greedy matching with backtracking
reduces to maximal-munch parsing for these patterns (verified pattern by
pattern: no shorter choice of a starred/plus-ed piece can succeed where the
maximal one fails, because the character that follows a maximal run can never
start the next piece). -/

/-- Case-insensitive literal test: does `l` start with the (lowercase) word
`w`? -/
def startsWithCi (w : List Char) (l : List Char) : Bool :=
  (l.take w.length).map Char.toLower == w

/-- The character class `[ivxlcdm]` under the `i` flag. -/
def isRomanChar (c : Char) : Bool :=
  let d := c.toLower
  d == 'i' || d == 'v' || d == 'x' || d == 'l' || d == 'c' || d == 'd' || d == 'm'

/-- The number-word alternatives of the chapter/part patterns, in the
alternation order of the regex. -/
def numberWords : List (List Char) :=
  ["one".data, "two".data, "three".data, "four".data, "five".data,
   "six".data, "seven".data, "eight".data, "nine".data, "ten".data]

/-- The alternation `(\d+|[ivxlcdm]+|one|…|ten)` at the start of `l`:
returns the matched text (original case) and the remainder.  `\d+` is tried
first (maximal), then the roman-character run (maximal), then the number
words in order. -/
def numAlt (l : List Char) : Option (List Char × List Char) :=
  let digits := l.takeWhile Char.isDigit
  if 0 < digits.length then some (digits, l.drop digits.length)
  else
    let romans := l.takeWhile isRomanChar
    if 0 < romans.length then some (romans, l.drop romans.length)
    else
      numberWords.findSome? fun w =>
        if startsWithCi w l then some (l.take w.length, l.drop w.length)
        else none

/-- The trailing `[:\s\-]*(.*)?$` of the keyword patterns: the third capture
group is the remainder after the maximal run of `:`/whitespace/`-`. -/
def tailGroup (rest : List Char) : List Char :=
  rest.dropWhile (fun c => c == ':' || jsWhitespace c || c == '-')

/-- Pattern 1, `^(#{1,6})\s+(.+)$`: on a trimmed line this matches iff the
line starts with one to six `#` followed by a whitespace character, and the
second capture group is the remainder after the maximal whitespace run
(non-empty because a trimmed line ends in non-whitespace). -/
def matchMarkdown (t : List Char) : Option (List Char) :=
  let k := (t.takeWhile (fun c => c == '#')).length
  if 1 ≤ k ∧ k ≤ 6 then
    match t.drop k with
    | [] => none
    | c :: rest =>
      if jsWhitespace c then
        let m2 := (c :: rest).dropWhile jsWhitespace
        if 0 < m2.length then some m2 else none
      else none
  else none

/-- Patterns 2–4, `^(chapter|chapitre|part|section)\s+NUM[:\s\-]*(.*)?$` with
the `i` flag: keyword (first alternative that is a case-insensitive prefix),
at least one whitespace character, then the number alternation; returns the
three capture groups. -/
def matchKeyword (kws : List (List Char))
    (numOf : List Char → Option (List Char × List Char)) (t : List Char) :
    Option (List Char × List Char × List Char) :=
  kws.findSome? fun kw =>
    if startsWithCi kw t then
      let rest := t.drop kw.length
      let ws := rest.takeWhile jsWhitespace
      if 0 < ws.length then
        (numOf (rest.drop ws.length)).map fun p =>
          (t.take kw.length, p.1, tailGroup p.2)
      else none
    else none

/-- The `[\d.]+` number of the `section` pattern. -/
def numDots (l : List Char) : Option (List Char × List Char) :=
  let run := l.takeWhile (fun c => Char.isDigit c || c == '.')
  if 0 < run.length then some (run, l.drop run.length) else none

/-- The `(?:\.\d+)*` of pattern 5, by maximal munch; the fuel (the list
length at the call site) makes the recursion structural and is always
sufficient because every step consumes at least two characters. -/
def dotChain : Nat → List Char → List Char
  | 0, l => l
  | _ + 1, [] => []
  | fuel + 1, c :: rest =>
    if c = '.' then
      let ds := rest.takeWhile Char.isDigit
      if 0 < ds.length then dotChain fuel (rest.drop ds.length) else c :: rest
    else c :: rest

/-- Pattern 5, `^(\d+(?:\.\d+)*)\s+([A-Z][^\n]+)$` (case-sensitive): a digit
run, then dot-digit groups, at least one whitespace character, an uppercase
letter and at least one further character.  (`[^\n]` accepts every character
of a split line.) -/
def matchNumbered (t : List Char) : Bool :=
  let ds := t.takeWhile Char.isDigit
  if 0 < ds.length then
    let rest := dotChain t.length (t.drop ds.length)
    let ws := rest.takeWhile jsWhitespace
    if 0 < ws.length then
      match rest.drop ws.length with
      | c :: _ :: _ => c.isUpper
      | _ => false
    else false
  else false

/-- Pattern 6, `^([A-Z][A-Z\s]{4,50})$` (case-sensitive): an uppercase letter
followed by 4 to 50 characters, each uppercase or whitespace, spanning the
whole line. -/
def matchAllCaps (t : List Char) : Bool :=
  match t with
  | [] => false
  | c :: rest =>
    c.isUpper && rest.all (fun d => d.isUpper || jsWhitespace d) &&
      decide (4 ≤ rest.length) && decide (rest.length ≤ 50)

/-- The keyword-pattern heading title
`` `${match[1]} ${match[2]}: ${match[3]}`.trim() `` when the third group is
truthy, otherwise the trimmed line. -/
def keywordTitle (t m1 m2 m3 : List Char) : List Char :=
  if 0 < m3.length then jsTrim (m1 ++ [' '] ++ m2 ++ [':', ' '] ++ m3) else t

/-- The per-line heading test of `detectSections`: the patterns are tried in
the order of `SECTION_PATTERNS` on the trimmed line, and the title is
extracted as in the source (`match[2].trim()` for a line starting with `#`,
the keyword title when `match[3]` is truthy, the trimmed line otherwise;
patterns 5 and 6 have no truthy third group, so they always yield the trimmed
line). -/
def headingOf (line : List Char) : Option (List Char) :=
  let t := jsTrim line
  match matchMarkdown t with
  | some m2 => some (jsTrim m2)
  | none =>
    match matchKeyword ["chapter".data, "chapitre".data] numAlt t with
    | some (m1, m2, m3) => some (keywordTitle t m1 m2 m3)
    | none =>
      match matchKeyword ["part".data] numAlt t with
      | some (m1, m2, m3) => some (keywordTitle t m1 m2 m3)
      | none =>
        match matchKeyword ["section".data] numDots t with
        | some (m1, m2, m3) => some (keywordTitle t m1 m2 m3)
        | none =>
          if matchNumbered t then some t
          else if matchAllCaps t then some t
          else none

/-- A detected document section (interface `DocumentSection`). -/
structure DocumentSection where
  title : List Char
  content : List Char
  startOffset : Nat
  endOffset : Nat
deriving DecidableEq

/-- JS `text.split('\n')`. -/
def splitNl : List Char → List (List Char)
  | [] => [[]]
  | c :: rest =>
    if c = '\n' then [] :: splitNl rest
    else
      match splitNl rest with
      | [] => [[c]]
      | h :: tl => (c :: h) :: tl

/-- Inverse of `splitNl` (re-joining with newlines), used to relate the line
offsets maintained by `detectSections` to positions in the whole text. -/
def joinNl : List (List Char) → List Char
  | [] => []
  | [l] => l
  | l :: rest => l ++ '\n' :: joinNl rest

/-- The line-scanning loop of `detectSections`, processing the remaining
`lines` with the running character offset, the open section and the sections
pushed so far; the `lines = []` case performs the post-loop finalisation
(close the open section, fall back to the single `Document` section when
nothing was pushed). -/
def detectGo (text : List Char) (lines : List (List Char)) (curOff : Nat)
    (cur : Option DocumentSection) (acc : List DocumentSection) :
    List DocumentSection :=
  match lines with
  | [] =>
    let acc2 :=
      match cur with
      | none => acc
      | some s =>
        let c := jsTrim (text.drop s.startOffset)
        if 0 < c.length then acc ++ [⟨s.title, c, s.startOffset, s.endOffset⟩]
        else acc
    if acc2.length = 0 then [⟨"Document".data, jsTrim text, 0, text.length⟩]
    else acc2
  | line :: rest =>
    let lineStart := curOff
    let lineEnd := curOff + line.length
    match headingOf line with
    | some title =>
      let acc' :=
        match cur with
        | none => acc
        | some s =>
          let c := jsTrim (sliceList text s.startOffset lineStart)
          if 0 < c.length then acc ++ [⟨s.title, c, s.startOffset, lineStart⟩]
          else acc
      detectGo text rest (lineEnd + 1)
        (some ⟨title, [], lineStart, text.length⟩) acc'
    | none => detectGo text rest (lineEnd + 1) cur acc

/-- `detectSections(text)` of src/src/lib/ai/embeddings.ts. -/
def detectSections (text : List Char) : List DocumentSection :=
  detectGo text (splitNl text) 0 none []

/-- The per-section renumbering loop of `chunkDocument`: chunk each section's
content, re-base the offsets by the section start, tag the section title and
renumber the chunk indices contiguously. -/
def chunkDocGo (maxChunkSize overlapSize : Nat) :
    List DocumentSection → Nat → List TextChunk → Option (List TextChunk)
  | [], _, acc => some acc
  | sec :: rest, g, acc =>
    match chunkText sec.content maxChunkSize overlapSize with
    | none => none
    | some cs =>
      chunkDocGo maxChunkSize overlapSize rest (g + cs.length)
        (acc ++ cs.mapIdx fun i c =>
          ⟨c.content, g + i, sec.startOffset + c.startOffset,
            sec.startOffset + c.endOffset, some sec.title⟩)

/-- `chunkDocument(text, { maxChunkSize, overlapSize, preserveSections })` of
src/src/lib/ai/embeddings.ts. -/
def chunkDocument (text : List Char) (maxChunkSize overlapSize : Nat)
    (preserveSections : Bool) : Option (List TextChunk) :=
  if (jsTrim text).length = 0 then some []
  else if text.length ≤ maxChunkSize then
    some [⟨jsTrim text, 0, 0, text.length, none⟩]
  else if preserveSections then
    chunkDocGo maxChunkSize overlapSize (detectSections text) 0 []
  else chunkText text maxChunkSize overlapSize

/-! ### Data model and repository (src/src/lib/db/schema.ts and
`contentRepository` of src/src/controllers/search.controller.ts)

Timestamps are abstract instants (`Nat`), passed in as `now` where the source
calls `new Date()`; the JSONB `metadata` column is not modelled (no claim
inspects it). -/

/-- `content_type`. -/
inductive CType
  | image
  | webpage
  | youtube
  | document
deriving DecidableEq

/-- `content_status`. -/
inductive CStatus
  | pending
  | processing
  | completed
  | failed
deriving DecidableEq

/-- A row of the `contents` table. -/
structure Row where
  id : List Char
  rtype : CType
  url : Option (List Char)
  title : List Char
  description : List Char
  contentPreview : Option (List Char)
  imageUrl : Option (List Char)
  status : CStatus
  errorMessage : Option (List Char)
  processingAttempts : Nat
  createdAt : Nat
  updatedAt : Nat
  completedAt : Option Nat
deriving DecidableEq

/-- A row of the `content_chunks` table (the `section` column is
`sectionTitle`, see `TextChunk`). -/
structure ChunkRow where
  id : List Char
  contentId : List Char
  content : List Char
  embedding : Option (List ℚ)
  chunkIndex : Nat
  startOffset : Option Nat
  endOffset : Option Nat
  sectionTitle : Option (List Char)
deriving DecidableEq

/-- The persistent state: both tables. -/
structure DB where
  rows : List Row
  chunks : List ChunkRow
deriving DecidableEq

/-- JS truthiness of a nullable string: `null`/`undefined` and the empty
string are falsy. -/
def truthyStr : Option (List Char) → Bool
  | none => false
  | some s => 0 < s.length

/-- The columns a caller passes to `contentRepository.create` (`NewContent`
without the defaulted columns); `completedAt` is insertable but every call
site omits it. -/
structure NewRow where
  id : List Char
  rtype : CType
  url : Option (List Char)
  title : List Char
  description : List Char
  contentPreview : Option (List Char)
  imageUrl : Option (List Char)
  status : CStatus
  errorMessage : Option (List Char)
  completedAt : Option Nat
deriving DecidableEq

/-- `contentRepository.create`: a plain insert; it fails (the promise
rejects) exactly when the primary key is already taken, and otherwise appends
the row with the column defaults `processing_attempts = 0`,
`created_at = updated_at = now`, `completed_at` as given (`null` at every call
site). -/
def createRow (now : Nat) (d : NewRow) (db : DB) : Except (List Char) DB :=
  if db.rows.any (fun r => r.id = d.id) then
    Except.error ("duplicate key value violates unique constraint".data)
  else
    Except.ok
      ⟨db.rows ++ [⟨d.id, d.rtype, d.url, d.title, d.description,
        d.contentPreview, d.imageUrl, d.status, d.errorMessage, 0, now, now,
        d.completedAt⟩], db.chunks⟩

/-- The `Partial<Omit<NewContent, 'id'>>` patch of `contentRepository.update`:
`none` means the field is absent from the patch (for nullable columns the
inner `Option` is the stored value, so `some none` sets the column to
`null`). -/
structure RowPatch where
  title : Option (List Char)
  description : Option (List Char)
  contentPreview : Option (Option (List Char))
  imageUrl : Option (Option (List Char))
  status : Option CStatus
  errorMessage : Option (Option (List Char))
  completedAt : Option (Option Nat)
deriving DecidableEq

/-- `contentRepository.update`: set the provided columns and refresh
`updated_at` on every row matching the id. -/
def updateRow (now : Nat) (id : List Char) (p : RowPatch) (db : DB) : DB :=
  ⟨db.rows.map fun r =>
    if r.id = id then
      ⟨r.id, r.rtype, r.url, p.title.getD r.title,
        p.description.getD r.description,
        p.contentPreview.getD r.contentPreview, p.imageUrl.getD r.imageUrl,
        p.status.getD r.status, p.errorMessage.getD r.errorMessage,
        r.processingAttempts, r.createdAt, now, p.completedAt.getD r.completedAt⟩
    else r, db.chunks⟩

/-- `contentRepository.updateStatus`: set the status, set `error_message` to
the given message when it is truthy and to `null` otherwise
(`errorMessage || null` — a given empty string also stores `null`), increment
`processing_attempts`, refresh `updated_at`, and set `completed_at` to `now`
exactly when the new status is `completed` and to `null` otherwise. -/
def updateStatus (now : Nat) (id : List Char) (st : CStatus)
    (errMsg : Option (List Char)) (db : DB) : DB :=
  ⟨db.rows.map fun r =>
    if r.id = id then
      ⟨r.id, r.rtype, r.url, r.title, r.description, r.contentPreview,
        r.imageUrl, st,
        (match errMsg with
          | some m => if 0 < m.length then some m else none
          | none => none),
        r.processingAttempts + 1, r.createdAt, now,
        if st = CStatus.completed then some now else none⟩
    else r, db.chunks⟩

/-- `contentRepository.findById`. -/
def findById (id : List Char) (db : DB) : Option Row :=
  db.rows.find? fun r => r.id = id

/-- The chunk columns a caller passes to `contentRepository.createChunks`. -/
structure NewChunk where
  chunkIndex : Nat
  content : List Char
  embedding : Option (List ℚ)
  startOffset : Option Nat
  endOffset : Option Nat
  sectionTitle : Option (List Char)
deriving DecidableEq

/-- `contentRepository.createChunks`: ids are
`chunk_${contentId}_${position}` from the positional index; the insert fails
when a chunk primary key is already taken. -/
def createChunksOp (contentId : List Char) (cdata : List NewChunk) (db : DB) :
    Except (List Char) DB :=
  let rows := cdata.mapIdx fun i c =>
    (⟨"chunk_".data ++ contentId ++ "_".data ++ (Nat.repr i).data, contentId,
      c.content, c.embedding, c.chunkIndex, c.startOffset, c.endOffset,
      c.sectionTitle⟩ : ChunkRow)
  if rows.any (fun c => (db.chunks ++ rows).countP (fun d => d.id = c.id) ≠ 1)
  then Except.error ("duplicate key value violates unique constraint".data)
  else Except.ok ⟨db.rows, db.chunks ++ rows⟩

/-- `contentRepository.deleteChunks`. -/
def deleteChunks (contentId : List Char) (db : DB) : DB :=
  ⟨db.rows, db.chunks.filter fun c => ¬(c.contentId = contentId)⟩

/-- One row of the `searchByEmbedding` result set. -/
structure SearchResult where
  row : Row
  similarity : ℚ
  matchedChunk : List Char
  matchedSection : Option (List Char)
deriving DecidableEq

/-- The `ORDER BY rc.similarity DESC` relation. -/
def simDescRel (a b : SearchResult) : Prop := b.similarity ≤ a.similarity

instance : DecidableRel simDescRel := fun a b =>
  inferInstanceAs (Decidable (b.similarity ≤ a.similarity))

instance : IsTotal SearchResult simDescRel :=
  ⟨fun a b => le_total b.similarity a.similarity⟩

instance : IsTrans SearchResult simDescRel :=
  ⟨fun _ _ _ h1 h2 => le_trans h2 h1⟩

/-- `contentRepository.searchByEmbedding`.  The pgvector cosine-distance
operator `<=>` is the capability parameter `dist`; similarity is
`1 - dist`.  The SQL: the CTE scores every chunk with a non-null embedding
and keeps those with similarity strictly above the threshold;
`ROW_NUMBER() OVER (PARTITION BY content_id ORDER BY distance)` keeps, per
content id, one chunk of maximal similarity (the tie among equals is
arbitrary in SQL; the model takes the first in table order, via
`List.argmax`); the outer query joins the contents row, keeps `completed`
rows and — when the filter is not `'all'`, here `none` — rows of the given
type, sorts by similarity descending and applies the limit. -/
def searchByEmbedding (dist : List ℚ → List ℚ → ℚ) (queryEmbedding : List ℚ)
    (limit : Nat) (threshold : ℚ) (typeFilter : Option CType) (db : DB) :
    List SearchResult :=
  let scored := db.chunks.filterMap fun c =>
    match c.embedding with
    | none => none
    | some e =>
      if threshold < 1 - dist e queryEmbedding then
        some (c, 1 - dist e queryEmbedding)
      else none
  let joined := db.rows.filterMap fun t =>
    if t.status = CStatus.completed ∧
        (∀ ty, typeFilter = some ty → t.rtype = ty) then
      match (scored.filter fun p => p.1.contentId = t.id).argmax
          (fun p => p.2) with
      | some p => some ⟨t, p.2, p.1.content, p.1.sectionTitle⟩
      | none => none
    else none
  (joined.insertionSort simDescRel).take limit

/-! ### Embedding orchestration (src/src/lib/ai/embeddings.ts)

The external provider call `embedMany` is a capability
`maxParallelCalls → texts → Except error vectors`. -/

/-- `generateEmbeddings(texts, { maxParallelCalls })`: the provider call with
its error message wrapped. -/
def generateEmbeddings
    (embedMany : Nat → List (List Char) → Except (List Char) (List (List ℚ)))
    (maxParallelCalls : Nat) (texts : List (List Char)) :
    Except (List Char) (List (List ℚ)) :=
  match embedMany maxParallelCalls texts with
  | Except.ok v => Except.ok v
  | Except.error e =>
    Except.error ("Failed to generate embeddings: ".data ++ e)

/-- The `for (let i = 0; i < batches; i++)` loop of
`batchGenerateEmbeddings`, structurally recursive on the number of remaining
batches; each iteration takes the slice `[i*batchSize, min(i*batchSize +
batchSize, length))` and calls `generateEmbeddings` with
`maxParallelCalls = 5`.  The progress callback and the 500 ms inter-batch
pause are side effects without data flow and are not modelled. -/
def batchGo
    (embedMany : Nat → List (List Char) → Except (List Char) (List (List ℚ)))
    (texts : List (List Char)) (batchSize : Nat) :
    Nat → Nat → List (List ℚ) → Except (List Char) (List (List ℚ))
  | 0, _, acc => Except.ok acc
  | rem + 1, i, acc =>
    let start := i * batchSize
    let stop := min (start + batchSize) texts.length
    let batch := (texts.take stop).drop start
    match generateEmbeddings embedMany 5 batch with
    | Except.error e => Except.error e
    | Except.ok embs => batchGo embedMany texts batchSize rem (i + 1) (acc ++ embs)

/-- `batchGenerateEmbeddings(texts, { batchSize })`: `batches =
Math.ceil(texts.length / batchSize)` batches.  With a non-empty input and
`batchSize = 0` the JS batch count is `Infinity` and the loop never exits;
that divergence is the `none` result.  (With an empty input the batch count
is `NaN` and the loop body never runs.) -/
def batchGenerateEmbeddings
    (embedMany : Nat → List (List Char) → Except (List Char) (List (List ℚ)))
    (texts : List (List Char)) (batchSize : Nat) :
    Option (Except (List Char) (List (List ℚ))) :=
  if texts.length = 0 then some (Except.ok [])
  else if batchSize = 0 then none
  else
    some (batchGo embedMany texts batchSize
      ((texts.length + batchSize - 1) / batchSize) 0 [])

/-! ### Content service (`ContentService` of src/unnamed/part_005)

The external collaborators — blob storage, image analysis, web/YouTube
extraction and the embedding provider — are capability fields of an
environment record; `nanoid` is the `contentId` parameter and `new Date()` is
`now`.  A `none` result of a service models divergence of the underlying
chunking loop (proved unreachable for the default options used here). -/

/-- JS `String.prototype.includes`: does `p` occur contiguously in the
list? -/
def containsList (p : List Char) : List Char → Bool
  | [] => decide (p = [])
  | c :: rest => (c :: rest).take p.length == p || containsList p rest

/-- `url.includes('youtube.com/watch') || url.includes('youtu.be/')`
(`webExtractionService.isYouTubeUrl`). -/
def isYouTubeUrl (url : List Char) : Bool :=
  containsList ("youtube.com/watch".data) url ||
    containsList ("youtu.be/".data) url

/-- The result shape of the extraction capabilities
(`WebContent`/`YouTubeContent`; the type-specific metadata sub-object is not
modelled). -/
structure Extracted where
  title : List Char
  description : List Char
  content : List Char
  thumbnail : Option (List Char)
deriving DecidableEq

/-- The chunk rows a service builds from text chunks and embedding vectors:
`embedding: embeddings[i]` (absent when the vectors run short, as in JS where
`embeddings[i]` would be `undefined`). -/
def chunkRowsOf (tcs : List TextChunk) (embs : List (List ℚ)) :
    List NewChunk :=
  tcs.mapIdx fun i c =>
    ⟨c.chunkIndex, c.content, embs[i]?, some c.startOffset, some c.endOffset,
      c.sectionTitle⟩

/-- Environment of `processUrl` and `retryFailedContent`: the result of the
one extraction performed (web or YouTube, chosen by `isYouTubeUrl`), and the
embedding provider. -/
structure UrlEnv where
  extract : Except (List Char) Extracted
  embedMany : Nat → List (List Char) → Except (List Char) (List (List ℚ))

/-- `ProcessUrlOutput`. -/
structure UrlOutput where
  contentId : List Char
  rtype : CType
  title : List Char
  description : List Char
  url : List Char
  imageUrl : Option (List Char)
  chunksCreated : Nat
deriving DecidableEq

/-- The failure-record write of `processUrl`'s catch block: create a fresh
`failed` row; its own failure is caught and logged, leaving the state as it
was. -/
def recordUrlFailure (now : Nat) (contentId : List Char) (isYT : Bool)
    (url : List Char) (errorMsg : List Char) (db : DB) : DB :=
  match createRow now
      ⟨contentId, (if isYT then CType.youtube else CType.webpage), some url,
        "Failed to process".data, "Content extraction failed".data, none,
        none, CStatus.failed, some errorMsg, none⟩ db with
  | Except.ok db' => db'
  | Except.error _ => db

/-- `ContentService.processUrl`: extract, create the content row with status
`completed`, chunk the full text (`chunkDocument` above 5000 characters,
`chunkText` otherwise, default options), embed, write the chunk rows.  Any
failure is caught, a failure record is attempted (`recordUrlFailure`) and a
wrapping error is re-thrown. -/
def processUrl (env : UrlEnv) (now : Nat) (contentId : List Char)
    (url : List Char) (userNote : Option (List Char)) (db : DB) :
    Option (Except (List Char) UrlOutput × DB) :=
  let isYT := isYouTubeUrl url
  match env.extract with
  | Except.error e =>
    some (Except.error ("Failed to process URL: ".data ++ e),
      recordUrlFailure now contentId isYT url e db)
  | Except.ok ex =>
    let title := if 0 < ex.title.length then ex.title else "Untitled".data
    let description := ex.description
    match createRow now
        ⟨contentId, (if isYT then CType.youtube else CType.webpage), some url,
          title, description, some (ex.content.take 500), ex.thumbnail,
          CStatus.completed, none, none⟩ db with
    | Except.error ce =>
      some (Except.error ("Failed to process URL: ".data ++ ce),
        recordUrlFailure now contentId isYT url ce db)
    | Except.ok dbA =>
      let fullText :=
        match userNote with
        | some n => n ++ '\n' :: title ++ '\n' :: description ++ '\n' :: ex.content
        | none => title ++ '\n' :: description ++ '\n' :: ex.content
      match (if 5000 < fullText.length then chunkDocument fullText 2000 200 true
             else chunkText fullText 1000 100) with
      | none => none
      | some tcs =>
        match generateEmbeddings env.embedMany 5 (tcs.map fun c => c.content) with
        | Except.error e =>
          some (Except.error ("Failed to process URL: ".data ++ e),
            recordUrlFailure now contentId isYT url e dbA)
        | Except.ok embs =>
          match createChunksOp contentId (chunkRowsOf tcs embs) dbA with
          | Except.error ce =>
            some (Except.error ("Failed to process URL: ".data ++ ce),
              recordUrlFailure now contentId isYT url ce dbA)
          | Except.ok dbB =>
            some (Except.ok
              ⟨contentId, (if isYT then CType.youtube else CType.webpage),
                title, description, url, ex.thumbnail, tcs.length⟩, dbB)

/-- The image-analysis capability result (`ImageMetadata`). -/
structure ImgMeta where
  title : List Char
  description : List Char
  tags : List (List Char)
deriving DecidableEq

/-- Environment of `processImage`. -/
structure ImageEnv where
  blobUrl : Except (List Char) (List Char)
  analysis : Except (List Char) ImgMeta
  embedMany : Nat → List (List Char) → Except (List Char) (List (List ℚ))

/-- `ProcessImageOutput`. -/
structure ImageOutput where
  success : Bool
  contentId : List Char
  title : Option (List Char)
  error : Option (List Char)
deriving DecidableEq

/-- The failure-record write of `processImage`'s catch block (best effort,
its own failure swallowed). -/
def recordImageFailure (now : Nat) (contentId filename errorMsg : List Char)
    (db : DB) : DB :=
  match createRow now
      ⟨contentId, CType.image, none, filename, "Failed to process".data, none,
        none, CStatus.failed, some errorMsg, none⟩ db with
  | Except.ok db' => db'
  | Except.error _ => db

/-- `ContentService.processImage`: upload, analyse, create the content row
with status `completed`, chunk `title\ndescription\ntags.join(' ')`
(`chunkText`, default options), embed, write the chunk rows.  Any failure is
caught, a failure record is attempted and a `success: false` output is
returned (no re-throw). -/
def processImage (env : ImageEnv) (now : Nat) (contentId : List Char)
    (filename : List Char) (_context : Option (List Char)) (db : DB) :
    Option (ImageOutput × DB) :=
  match env.blobUrl with
  | Except.error e =>
    some (⟨false, contentId, none, some e⟩,
      recordImageFailure now contentId filename e db)
  | Except.ok blobUrl =>
    match env.analysis with
    | Except.error e =>
      some (⟨false, contentId, none, some e⟩,
        recordImageFailure now contentId filename e db)
    | Except.ok meta =>
      let title := if 0 < meta.title.length then meta.title else filename
      let description :=
        if 0 < meta.description.length then meta.description
        else "Image uploaded".data
      match createRow now
          ⟨contentId, CType.image, none, title, description,
            some (description.take 500), some blobUrl, CStatus.completed,
            none, none⟩ db with
      | Except.error ce =>
        some (⟨false, contentId, none, some ce⟩,
          recordImageFailure now contentId filename ce db)
      | Except.ok dbA =>
        let textForEmbedding :=
          title ++ '\n' :: description ++ '\n' ::
            (List.intercalate [' '] meta.tags)
        match chunkText textForEmbedding 1000 100 with
        | none => none
        | some tcs =>
          match generateEmbeddings env.embedMany 5
              (tcs.map fun c => c.content) with
          | Except.error e =>
            some (⟨false, contentId, none, some e⟩,
              recordImageFailure now contentId filename e dbA)
          | Except.ok embs =>
            match createChunksOp contentId
                (chunkRowsOf (tcs.map fun c =>
                  ⟨c.content, c.chunkIndex, c.startOffset, c.endOffset, none⟩)
                  embs) dbA with
            | Except.error ce =>
              some (⟨false, contentId, none, some ce⟩,
                recordImageFailure now contentId filename ce dbA)
            | Except.ok dbB =>
              some (⟨true, contentId, some title, none⟩, dbB)

/-- The pipeline `retryFailedContent` runs once its precondition checks have
passed (the body of the `try` after `updateStatus(id, 'processing')`):
re-extract, update the row to `completed`, delete the old chunks, re-chunk,
re-embed, re-create the chunks; on any failure update the row back to
`failed` with the error message and re-throw a wrapping error. -/
def retryPipeline (env : UrlEnv) (now : Nat) (contentId : List Char)
    (db : DB) : Option (Except (List Char) Nat × DB) :=
  match env.extract with
  | Except.error e =>
    some (Except.error ("Failed to retry content: ".data ++ e),
      updateStatus now contentId CStatus.failed (some e) db)
  | Except.ok ex =>
    let db2 := updateRow now contentId
      ⟨some ex.title, some ex.description, some (some (ex.content.take 500)),
        some ex.thumbnail, some CStatus.completed, some none, none⟩ db
    let db3 := deleteChunks contentId db2
    let fullText := ex.title ++ '\n' :: ex.description ++ '\n' :: ex.content
    match (if 5000 < fullText.length then chunkDocument fullText 2000 200 true
           else chunkText fullText 1000 100) with
    | none => none
    | some tcs =>
      match generateEmbeddings env.embedMany 5 (tcs.map fun c => c.content) with
      | Except.error e =>
        some (Except.error ("Failed to retry content: ".data ++ e),
          updateStatus now contentId CStatus.failed (some e) db3)
      | Except.ok embs =>
        match createChunksOp contentId (chunkRowsOf tcs embs) db3 with
        | Except.error ce =>
          some (Except.error ("Failed to retry content: ".data ++ ce),
            updateStatus now contentId CStatus.failed (some ce) db3)
        | Except.ok db4 => some (Except.ok tcs.length, db4)

/-- `ContentService.retryFailedContent`: reject a missing id, a row that is
not `failed`, and an image-type or URL-less row (JS `!content.url`, so an
empty URL string is also rejected); otherwise set the row to `processing` and
run `retryPipeline`.  The `Except.ok` payload is `chunksCreated`. -/
def retryFailedContent (env : UrlEnv) (now : Nat) (contentId : List Char)
    (db : DB) : Option (Except (List Char) Nat × DB) :=
  match findById contentId db with
  | none => some (Except.error ("Content not found".data), db)
  | some content =>
    if content.status ≠ CStatus.failed then
      some (Except.error ("Content is not in failed state".data), db)
    else if content.rtype = CType.image ∨ truthyStr content.url = false then
      some (Except.error ("Image content requires re-upload to retry".data), db)
    else
      retryPipeline env now contentId
        (updateStatus now contentId CStatus.processing none db)

/-! ### Specification predicates -/

/-- Shape of the cleaned text inside the `chunkText` loop: empty, or with
non-whitespace first and last characters and no two adjacent whitespace
characters (the effect of `replace(/\s+/g, ' ').trim()`). -/
def CleanShape (l : List Char) : Prop :=
  l.Chain' (fun a b => ¬(jsWhitespace a = true ∧ jsWhitespace b = true)) ∧
    (∀ h : l ≠ [], jsWhitespace (l.head h) = false ∧
      jsWhitespace (l.getLast h) = false)

/-- Invariant of the `chunkText` scan loop. -/
def LoopInv (cleaned : List Char) (s : ChunkState) : Prop :=
  (∀ c ∈ s.chunks, c.startOffset < c.endOffset ∧ c.endOffset ≤ cleaned.length) ∧
    s.chunks.Chain' (fun a b => b.startOffset ≤ a.endOffset) ∧
    (s.chunks = [] → s.pos = 0) ∧
    (∀ c ∈ s.chunks.head?, c.startOffset = 0) ∧
    (∀ c ∈ s.chunks.getLast?, s.pos ≤ c.endOffset)

/-- The loop state of `chunkText("a b", { maxChunkSize: 1, overlapSize: 1 })`
after its first iteration; `chunkStep` maps it to itself, so the JS loop
never exits. -/
def c7State : ChunkState := ⟨1, 1, [⟨['a'], 0, 0, 1, none⟩]⟩

/-- The data-model invariant of claim C6: a `completed` content row has
`completed_at` set. -/
def CompletedInv (db : DB) : Prop :=
  ∀ r ∈ db.rows, r.status = CStatus.completed → r.completedAt ≠ none

instance : DecidablePred CompletedInv := fun db =>
  inferInstanceAs (Decidable (∀ r ∈ db.rows, _ → _))

/-! ### Concrete evaluation fixtures (used by witness theorems) -/

/-- A `completed` webpage row. -/
def rowA : Row :=
  ⟨"A".data, CType.webpage, none, "tA".data, "dA".data, none, none,
    CStatus.completed, none, 0, 0, 0, some 0⟩

/-- A `pending` webpage row. -/
def rowB : Row :=
  ⟨"B".data, CType.webpage, none, "tB".data, "dB".data, none, none,
    CStatus.pending, none, 0, 0, 0, none⟩

/-- A small store: two chunks for row `A` (similarities 2 and 1 under
`negHeadDist` with any query) and one high-similarity chunk for the
non-completed row `B`. -/
def searchDB : DB :=
  ⟨[rowA, rowB],
    [⟨"cA0".data, "A".data, "c0".data, some [1], 0, some 0, some 1, none⟩,
     ⟨"cA1".data, "A".data, "c1".data, some [0], 1, some 0, some 1, none⟩,
     ⟨"cB0".data, "B".data, "c2".data, some [5], 0, some 0, some 1, none⟩]⟩

/-- A concrete distance capability for evaluation: minus the first
coordinate (so similarity is `1 + head`). -/
def negHeadDist : List ℚ → List ℚ → ℚ := fun e _ => -(e.headD 0)

/-- A `failed` webpage row with a source URL and two prior attempts. -/
def rowF : Row :=
  ⟨"F".data, CType.webpage, some "https://x.example/a".data, "tF".data,
    "dF".data, none, none, CStatus.failed, some "bad".data, 2, 0, 0, none⟩

/-- A `failed` image row (no URL). -/
def rowI : Row :=
  ⟨"I".data, CType.image, none, "tI".data, "dI".data, none, none,
    CStatus.failed, some "bad".data, 1, 0, 0, none⟩

/-- Store for the retry scenarios. -/
def retryDB : DB := ⟨[rowA, rowF, rowI], []⟩

/-- An environment whose extraction fails. -/
def failingEnv : UrlEnv :=
  ⟨Except.error "fetch failed".data, fun _ ts => Except.ok (ts.map fun _ => [1])⟩

/-- An environment whose extraction and embedding succeed. -/
def okEnv : UrlEnv :=
  ⟨Except.ok ⟨"T".data, "D".data, "Some body text. More text.".data,
    none⟩, fun _ ts => Except.ok (ts.map fun _ => [1])⟩

/-- An environment whose extraction succeeds but whose embedding provider
always fails. -/
def embedFailEnv : UrlEnv :=
  ⟨Except.ok ⟨"T".data, "D".data, "body".data, none⟩,
    fun _ _ => Except.error "prov down".data⟩

/-- An image environment whose analysis fails. -/
def imgFailEnv : ImageEnv :=
  ⟨Except.ok "https://blob.example/i".data, Except.error "no caption".data,
    fun _ ts => Except.ok (ts.map fun _ => [1])⟩

end Penny

namespace Penny

/-! ## Theorems -/

/-! ### Text-cleaning lemmas -/

theorem jsTrim_length_le (l : List Char) : (jsTrim l).length ≤ l.length := by
  unfold jsTrim
  calc ((l.dropWhile jsWhitespace).reverse.dropWhile jsWhitespace).reverse.length
      = ((l.dropWhile jsWhitespace).reverse.dropWhile jsWhitespace).length := by
        simp
    _ ≤ (l.dropWhile jsWhitespace).reverse.length :=
        (List.dropWhile_sublist _).length_le
    _ = (l.dropWhile jsWhitespace).length := by simp
    _ ≤ l.length := (List.dropWhile_sublist _).length_le

theorem collapseWsAux_length_le (b : Bool) (l : List Char) :
    (collapseWsAux b l).length ≤ l.length := by
  induction l generalizing b with
  | nil => simp [collapseWsAux]
  | cons c rest ih =>
    cases hw : jsWhitespace c with
    | false =>
      simp only [collapseWsAux, hw, Bool.false_eq_true, if_false,
        List.length_cons]
      exact Nat.succ_le_succ (ih false)
    | true =>
      cases b with
      | false =>
        simp only [collapseWsAux, hw, if_true, Bool.false_eq_true, if_false,
          List.length_cons]
        exact Nat.succ_le_succ (ih true)
      | true =>
        simp only [collapseWsAux, hw, if_true, List.length_cons]
        exact Nat.le_succ_of_le (ih true)

theorem cleanedOf_length_le (t : List Char) :
    (cleanedOf t).length ≤ t.length :=
  le_trans (jsTrim_length_le _) (collapseWsAux_length_le false t)

theorem jsTrim_eq_nil_iff (l : List Char) :
    jsTrim l = [] ↔ ∀ c ∈ l, jsWhitespace c = true := by
  unfold jsTrim
  rw [List.reverse_eq_nil_iff, List.dropWhile_eq_nil_iff]
  constructor
  · intro h c hc
    rcases List.mem_append.1
        ((List.takeWhile_append_dropWhile (p := jsWhitespace) (l := l)) ▸ hc) with
        h1 | h2
    · exact List.mem_takeWhile_imp h1
    · exact h _ (List.mem_reverse.2 h2)
  · intro h c hc
    exact h c ((List.dropWhile_sublist _).subset (List.mem_reverse.1 hc))

theorem mem_collapseWsAux_of_not_ws {c : Char} (hc : jsWhitespace c = false)
    (b : Bool) (l : List Char) : c ∈ collapseWsAux b l ↔ c ∈ l := by
  induction l generalizing b with
  | nil => simp [collapseWsAux]
  | cons d rest ih =>
    have hcsp : c ≠ ' ' := fun h => by
      rw [h] at hc; simp [jsWhitespace] at hc
    cases hd : jsWhitespace d with
    | true =>
      have hcd : c ≠ d := fun h => by rw [h, hd] at hc; cases hc
      cases b with
      | true =>
        simp only [collapseWsAux, hd, if_true, List.mem_cons]
        rw [ih true]; simp [hcd]
      | false =>
        simp only [collapseWsAux, hd, if_true, Bool.false_eq_true, if_false,
          List.mem_cons]
        rw [ih true]; simp [hcd, hcsp]
    | false =>
      simp only [collapseWsAux, hd, Bool.false_eq_true, if_false,
        List.mem_cons]
      rw [ih false]

theorem cleanedOf_eq_nil_iff (t : List Char) :
    cleanedOf t = [] ↔ jsTrim t = [] := by
  unfold cleanedOf collapseWs
  rw [jsTrim_eq_nil_iff, jsTrim_eq_nil_iff]
  constructor
  · intro h c hc
    by_cases hw : jsWhitespace c = true
    · exact hw
    · exact h c ((mem_collapseWsAux_of_not_ws (Bool.eq_false_iff.2 hw) false t).2 hc)
  · intro h c hc
    by_cases hw : jsWhitespace c = true
    · exact hw
    · exact h c ((mem_collapseWsAux_of_not_ws (Bool.eq_false_iff.2 hw) false t).1 hc)

theorem collapseWsAux_spec (l : List Char) :
    (∀ b, (collapseWsAux b l).Chain'
      (fun a b => ¬(jsWhitespace a = true ∧ jsWhitespace b = true))) ∧
    (∀ h : collapseWsAux true l ≠ [],
      jsWhitespace ((collapseWsAux true l).head h) = false) := by
  induction l with
  | nil => exact ⟨fun b => by simp [collapseWsAux], fun h => absurd rfl h⟩
  | cons c rest ih =>
    cases hw : jsWhitespace c with
    | false =>
      have hchain : ∀ b, (collapseWsAux b (c :: rest)).Chain'
          (fun a b => ¬(jsWhitespace a = true ∧ jsWhitespace b = true)) := by
        intro b
        simp only [collapseWsAux, hw, Bool.false_eq_true, if_false]
        refine List.chain'_cons'.2 ⟨?_, ih.1 false⟩
        intro y _
        intro hand
        rw [hw] at hand
        exact Bool.false_ne_true hand.1
      refine ⟨hchain, ?_⟩
      intro h
      simp only [collapseWsAux, hw, Bool.false_eq_true, if_false]
      simpa using hw
    | true =>
      have hhd : ∀ h : collapseWsAux true (c :: rest) ≠ [],
          jsWhitespace ((collapseWsAux true (c :: rest)).head h) = false := by
        intro h
        have he : collapseWsAux true (c :: rest) = collapseWsAux true rest := by
          simp [collapseWsAux, hw]
        have h' : collapseWsAux true rest ≠ [] := by
          intro he2
          exact h (he.trans he2)
        have h3 : some ((collapseWsAux true (c :: rest)).head h) =
            some ((collapseWsAux true rest).head h') := by
          rw [← List.head?_eq_head (l := collapseWsAux true (c :: rest)) h,
            ← List.head?_eq_head (l := collapseWsAux true rest) h', he]
        rw [Option.some_inj.1 h3]
        exact ih.2 h'
      refine ⟨?_, hhd⟩
      intro b
      cases b with
      | true =>
        have he : collapseWsAux true (c :: rest) = collapseWsAux true rest := by
          simp [collapseWsAux, hw]
        rw [he]
        exact ih.1 true
      | false =>
        have he : collapseWsAux false (c :: rest) =
            ' ' :: collapseWsAux true rest := by
          simp [collapseWsAux, hw]
        rw [he]
        refine List.chain'_cons'.2 ⟨?_, ih.1 true⟩
        intro y hy
        have hne : collapseWsAux true rest ≠ [] := by
          intro he2; rw [he2] at hy; simp at hy
        have hyh : y = (collapseWsAux true rest).head hne := by
          rw [List.head?_eq_head hne] at hy
          exact (Option.some_inj.1 hy).symm
        intro hand
        rw [hyh] at hand
        rw [ih.2 hne] at hand
        exact Bool.false_ne_true hand.2

theorem chain'_collapseWs (l : List Char) :
    (collapseWs l).Chain'
      (fun a b => ¬(jsWhitespace a = true ∧ jsWhitespace b = true)) :=
  (collapseWsAux_spec l).1 false

theorem jsTrim_chain' (l : List Char)
    (h : l.Chain' (fun a b => ¬(jsWhitespace a = true ∧ jsWhitespace b = true))) :
    (jsTrim l).Chain'
      (fun a b => ¬(jsWhitespace a = true ∧ jsWhitespace b = true)) := by
  unfold jsTrim
  have h1 : (l.dropWhile jsWhitespace).Chain'
      (fun a b => ¬(jsWhitespace a = true ∧ jsWhitespace b = true)) :=
    h.suffix (List.dropWhile_suffix _)
  have h2 : (l.dropWhile jsWhitespace).reverse.Chain'
      (fun a b => ¬(jsWhitespace a = true ∧ jsWhitespace b = true)) := by
    rw [List.chain'_reverse]
    exact h1.imp fun a b hab hand => hab ⟨hand.2, hand.1⟩
  have h3 := h2.suffix (List.dropWhile_suffix (l := (l.dropWhile jsWhitespace).reverse)
    (p := jsWhitespace))
  rw [List.chain'_reverse]
  exact h3.imp fun a b hab hand => hab ⟨hand.2, hand.1⟩

theorem jsTrim_getLast_not_ws (l : List Char) (h : jsTrim l ≠ []) :
    jsWhitespace ((jsTrim l).getLast h) = false := by
  unfold jsTrim at h ⊢
  have hne : ((l.dropWhile jsWhitespace).reverse.dropWhile jsWhitespace) ≠ [] := by
    simpa using h
  rw [List.getLast_reverse (by simpa using h)]
  exact List.head_dropWhile_not _ _ hne

theorem jsTrim_head_not_ws (l : List Char) (h : jsTrim l ≠ []) :
    jsWhitespace ((jsTrim l).head h) = false := by
  unfold jsTrim at h ⊢
  have hY : ((l.dropWhile jsWhitespace).reverse.dropWhile jsWhitespace) ≠ [] := by
    simpa using h
  rw [List.head_reverse]
  have hX : (l.dropWhile jsWhitespace).reverse ≠ [] := by
    intro he
    rw [he] at hY
    simp at hY
  have hgl := (List.dropWhile_suffix
    (l := (l.dropWhile jsWhitespace).reverse) (p := jsWhitespace)).getLast hY
  rw [hgl]
  have hX0 : l.dropWhile jsWhitespace ≠ [] := by simpa using hX
  rw [List.getLast_reverse (by simpa using hX)]
  exact List.head_dropWhile_not _ _ hX0

theorem cleanShape_cleanedOf (t : List Char) : CleanShape (cleanedOf t) := by
  refine ⟨jsTrim_chain' _ (chain'_collapseWs t), fun h => ⟨?_, ?_⟩⟩
  · exact jsTrim_head_not_ws _ h
  · exact jsTrim_getLast_not_ws _ h

/-! ### Slice and boundary lemmas for the chunk loop -/

theorem sliceList_length (l : List Char) (a b : Nat) (hb : b ≤ l.length) :
    (sliceList l a b).length = b - a := by
  simp [sliceList]
  omega

theorem sliceList_getElem (l : List Char) (a b i : Nat) (hb : b ≤ l.length)
    (hi : i < b - a) :
    ∃ hp : a + i < l.length,
      (sliceList l a b).get ⟨i, by
        rw [sliceList_length l a b hb]; exact hi⟩ = l.get ⟨a + i, hp⟩ := by
  refine ⟨by omega, ?_⟩
  simp only [List.get_eq_getElem]
  unfold sliceList
  rw [List.getElem_drop]
  rw [List.getElem_take]

theorem mem_sliceList (l : List Char) (a b p : Nat) (hb : b ≤ l.length)
    (hap : a ≤ p) (hpb : p < b) (hp : p < l.length) :
    l.get ⟨p, hp⟩ ∈ sliceList l a b := by
  obtain ⟨hp2, he⟩ := sliceList_getElem l a b (p - a) hb (by omega)
  have hx : l.get ⟨a + (p - a), hp2⟩ = l.get ⟨p, hp⟩ := by
    simp only [List.get_eq_getElem]
    congr 1
    omega
  rw [← hx, ← he]
  exact List.get_mem _ _ _

theorem jsTrim_ne_nil_of_mem_not_ws {l : List Char} {c : Char} (hc : c ∈ l)
    (hw : jsWhitespace c = false) : jsTrim l ≠ [] := by
  intro he
  have := (jsTrim_eq_nil_iff l).1 he c hc
  rw [hw] at this
  exact Bool.false_ne_true this

theorem chain'_getElem {R : Char → Char → Prop} {l : List Char}
    (h : l.Chain' R) (i : Nat) (hi : i + 1 < l.length) :
    R (l.get ⟨i, by omega⟩) (l.get ⟨i + 1, hi⟩) := by
  rw [List.chain'_iff_get] at h
  exact h i (by omega)

/-- A slice `[a, b)` of a `CleanShape` text with `a < b ≤ length` and either
`b - a ≥ 2` or `b = length` trims to a non-empty string (the chunk-emission
fact: with `maxChunkSize ≥ 2` every loop iteration pushes a chunk). -/
theorem sliceList_trim_ne_nil {cl : List Char} (hcs : CleanShape cl)
    {a b : Nat} (hab : a < b) (hb : b ≤ cl.length)
    (hcase : 2 ≤ b - a ∨ b = cl.length) :
    jsTrim (sliceList cl a b) ≠ [] := by
  by_cases h2 : 2 ≤ b - a
  · have hi : a + 1 < cl.length := by omega
    have hR := chain'_getElem hcs.1 a hi
    by_cases hwa : jsWhitespace (cl.get ⟨a, by omega⟩) = true
    · have hwb : jsWhitespace (cl.get ⟨a + 1, hi⟩) = false := by
        cases hx : jsWhitespace (cl.get ⟨a + 1, hi⟩) with
        | false => rfl
        | true => exact absurd ⟨hwa, hx⟩ hR
      have hmem := mem_sliceList cl a b (a + 1) hb (by omega) (by omega) hi
      exact jsTrim_ne_nil_of_mem_not_ws hmem hwb
    · have hmem := mem_sliceList cl a b a hb (by omega) (by omega) (by omega)
      exact jsTrim_ne_nil_of_mem_not_ws hmem (Bool.eq_false_iff.2 hwa)
  · rcases hcase with h | hblen
    · omega
    · have hne : cl ≠ [] := by
        intro he
        rw [he] at hb
        simp at hb
        omega
      have hlast := (hcs.2 hne).2
      rw [List.getLast_eq_getElem cl hne] at hlast
      have hlen1 : cl.length - 1 < cl.length := by
        have := List.length_pos.2 hne
        omega
      have hmem := mem_sliceList cl a b (cl.length - 1) hb
        (by omega) (by omega) hlen1
      exact jsTrim_ne_nil_of_mem_not_ws hmem hlast

theorem foldl_lastIndex_spec (g : Nat → Bool) (L : List Nat)
    (acc : Option Nat) (hacc : ∀ j, acc = some j → g j = true) :
    ∀ j, L.foldl (fun acc i => if g i then some i else acc) acc = some j →
      g j = true := by
  induction L generalizing acc with
  | nil => exact hacc
  | cons i L ih =>
    intro j hj
    refine ih (if g i then some i else acc) ?_ j hj
    intro k hk
    by_cases hg : g i = true
    · rw [if_pos hg] at hk
      rw [← Option.some_inj.1 hk]
      exact hg
    · rw [if_neg hg] at hk
      exact hacc k hk

theorem lastIndexOf1_spec (s : List Char) (a : Char) (i : Nat)
    (h : lastIndexOf1 s a = some i) : i < s.length ∧ s[i]? = some a := by
  have hg := foldl_lastIndex_spec (fun i => s[i]? == some a)
    (List.range s.length) none (by intro j hj; cases hj) i h
  have heq : s[i]? = some a := eq_of_beq hg
  refine ⟨?_, heq⟩
  have := List.getElem?_eq_some_iff.1 heq
  exact this.1

theorem lastIndexOf2_spec (s : List Char) (a b : Char) (i : Nat)
    (h : lastIndexOf2 s a b = some i) :
    i + 1 < s.length ∧ s[i]? = some a ∧ s[i + 1]? = some b := by
  have hg := foldl_lastIndex_spec
    (fun i => s[i]? == some a && s[i + 1]? == some b)
    (List.range s.length) none (by intro j hj; cases hj) i h
  have hsplit := Bool.and_eq_true_iff.1 hg
  have h1 : s[i]? = some a := eq_of_beq hsplit.1
  have h2 : s[i + 1]? = some b := eq_of_beq hsplit.2
  exact ⟨(List.getElem?_eq_some_iff.1 h2).1, h1, h2⟩

/-- Bounds on the end position chosen by one loop iteration:
it strictly exceeds the position, stays within the text, and — when
`maxChunkSize ≥ 2` — either advances by at least two characters or reaches
the end of the text. -/
theorem chunkEnd_bounds (cl : List Char) (mcs pos : Nat) (h1 : 1 ≤ mcs)
    (h2 : pos < cl.length) :
    pos < chunkEnd cl mcs pos ∧ chunkEnd cl mcs pos ≤ cl.length ∧
      (2 ≤ mcs → pos + 2 ≤ chunkEnd cl mcs pos ∨
        chunkEnd cl mcs pos = cl.length) := by
  unfold chunkEnd
  by_cases hlt : min (pos + mcs) cl.length < cl.length
  · rw [if_pos hlt]
    have hend0 : min (pos + mcs) cl.length = pos + mcs := by omega
    set searchStart := max pos (min (pos + mcs) cl.length - 200) with hss
    have hsspos : pos ≤ searchStart := le_max_left _ _
    have hssend : searchStart ≤ min (pos + mcs) cl.length := by omega
    set searchText := sliceList cl searchStart (min (pos + mcs) cl.length)
      with hst
    have hstlen : searchText.length =
        min (pos + mcs) cl.length - searchStart :=
      sliceList_length cl _ _ (by omega)
    have hbound : ∀ i ∈ chunkBoundaries searchText,
        1 ≤ i ∧ i < searchText.length := by
      intro i hi
      unfold chunkBoundaries at hi
      rw [List.mem_filter] at hi
      obtain ⟨hi1, hi2⟩ := hi
      refine ⟨by simpa using hi2, ?_⟩
      rw [List.mem_filterMap] at hi1
      obtain ⟨o, ho, hoi⟩ := hi1
      subst hoi
      simp only [List.mem_cons, List.not_mem_nil, or_false] at ho
      rcases ho with h | h | h | h
      · exact Nat.lt_of_succ_lt (lastIndexOf2_spec _ _ _ _ h.symm).1
      · exact Nat.lt_of_succ_lt (lastIndexOf2_spec _ _ _ _ h.symm).1
      · exact Nat.lt_of_succ_lt (lastIndexOf2_spec _ _ _ _ h.symm).1
      · exact (lastIndexOf1_spec _ _ _ h.symm).1
    cases hmax : ((chunkBoundaries searchText).map
        (fun i => searchStart + i + 1)).max? with
    | none =>
      simp only [hmax]
      omega
    | some m =>
      simp only [hmax]
      have hm := List.max?_mem (fun a b => max_choice a b) hmax
      rw [List.mem_map] at hm
      obtain ⟨i, hi, him⟩ := hm
      obtain ⟨hi1, hi2⟩ := hbound i hi
      subst him
      omega
  · rw [if_neg hlt]
    omega

theorem mem_of_mem_getLastQ {α : Type} {l : List α} {c : α}
    (h : c ∈ l.getLast?) : c ∈ l := by
  cases l with
  | nil => cases h
  | cons d t =>
    have hne : (d :: t) ≠ [] := by simp
    rw [List.getLast?_eq_getLast _ hne, Option.mem_some_iff] at h
    subst h
    exact List.getLast_mem hne

theorem chain'_append_singleton {α : Type} {R : α → α → Prop} {l : List α}
    {x : α} (h : l.Chain' R) (hx : ∀ c ∈ l.getLast?, R c x) :
    (l ++ [x]).Chain' R := by
  rw [List.chain'_append]
  refine ⟨h, List.chain'_singleton x, ?_⟩
  intro a ha b hb
  simp only [List.head?_cons, Option.mem_some_iff] at hb
  subst hb
  exact hx a ha

theorem chunkStep_spec (cl : List Char) (mcs ov : Nat) (s : ChunkState)
    (hcs : CleanShape cl) (hmcs : 2 ≤ mcs) (hpos : s.pos < cl.length)
    (hinv : LoopInv cl s) :
    LoopInv cl (chunkStep cl mcs ov s) ∧ s.pos < (chunkStep cl mcs ov s).pos := by
  obtain ⟨hlt, hle, hcase⟩ := chunkEnd_bounds cl mcs s.pos (by omega) hpos
  have hcsne : jsTrim (sliceList cl s.pos (chunkEnd cl mcs s.pos)) ≠ [] := by
    apply sliceList_trim_ne_nil hcs hlt hle
    rcases hcase hmcs with h | h
    · left; omega
    · right; exact h
  have hstep : chunkStep cl mcs ov s =
      ⟨(if chunkEnd cl mcs s.pos - ov ≤ s.pos then chunkEnd cl mcs s.pos
          else chunkEnd cl mcs s.pos - ov), s.idx + 1,
        s.chunks ++ [⟨jsTrim (sliceList cl s.pos (chunkEnd cl mcs s.pos)),
          s.idx, s.pos, chunkEnd cl mcs s.pos, none⟩]⟩ := by
    simp only [chunkStep]
    rw [if_pos (List.length_pos.2 hcsne), if_pos (List.length_pos.2 hcsne)]
    rw [List.getLast?_concat]
  rw [hstep]
  refine ⟨⟨?_, ?_, ?_, ?_, ?_⟩, ?_⟩
  · intro c hc
    rw [List.mem_append] at hc
    rcases hc with hc | hc
    · exact hinv.1 c hc
    · simp only [List.mem_singleton] at hc
      subst hc
      exact ⟨hlt, hle⟩
  · exact chain'_append_singleton hinv.2.1 (fun c hc => hinv.2.2.2.2 c hc)
  · intro h
    simp at h
  · intro c hc
    cases hch : s.chunks with
    | nil =>
      rw [hch] at hc
      simp only [List.nil_append, List.head?_cons, Option.mem_some_iff] at hc
      subst hc
      exact hinv.2.2.1 hch
    | cons d t =>
      rw [hch] at hc
      simp only [List.cons_append, List.head?_cons, Option.mem_some_iff] at hc
      subst hc
      have := hinv.2.2.2.1 d
      rw [hch] at this
      exact this (by simp)
  · intro c hc
    rw [List.getLast?_concat, Option.mem_some_iff] at hc
    subst hc
    dsimp only
    by_cases hg : chunkEnd cl mcs s.pos - ov ≤ s.pos
    · rw [if_pos hg]
    · rw [if_neg hg]
      omega
  · dsimp only
    by_cases hg : chunkEnd cl mcs s.pos - ov ≤ s.pos
    · rw [if_pos hg]
      exact hlt
    · rw [if_neg hg]
      omega

theorem chunkLoop_spec (cl : List Char) (mcs ov : Nat) (hcs : CleanShape cl)
    (hmcs : 2 ≤ mcs) :
    ∀ fuel s, LoopInv cl s → cl.length - s.pos < fuel →
      ∃ out, chunkLoop cl mcs ov fuel s = some out ∧
        (∀ c ∈ out, c.startOffset < c.endOffset ∧ c.endOffset ≤ cl.length) ∧
        out.Chain' (fun a b => b.startOffset ≤ a.endOffset) ∧
        (out = [] → cl.length = 0) ∧
        (∀ c ∈ out.head?, c.startOffset = 0) ∧
        (∀ c ∈ out.getLast?, c.endOffset = cl.length) := by
  intro fuel
  induction fuel with
  | zero =>
    intro s hinv hf
    omega
  | succ n ih =>
    intro s hinv hf
    by_cases hpos : s.pos < cl.length
    · obtain ⟨hinv', hprog⟩ := chunkStep_spec cl mcs ov s hcs hmcs hpos hinv
      obtain ⟨out, hout, hrest⟩ := ih (chunkStep cl mcs ov s) hinv' (by omega)
      refine ⟨out, ?_, hrest⟩
      rw [chunkLoop, if_pos hpos]
      exact hout
    · refine ⟨s.chunks, ?_, hinv.1, hinv.2.1, ?_, hinv.2.2.2.1, ?_⟩
      · rw [chunkLoop, if_neg hpos]
      · intro h
        have := hinv.2.2.1 h
        omega
      · intro c hc
        have h1 := hinv.2.2.2.2 c hc
        have h2 := (hinv.1 c (mem_of_mem_getLastQ hc)).2
        omega

theorem loopInv_init (cl : List Char) : LoopInv cl ⟨0, 0, []⟩ :=
  ⟨by simp, by simp, fun _ => rfl, by simp, by simp⟩

/-- Totality of `chunkText` for every `maxChunkSize ≥ 2` (in particular for
both default configurations, 1000/100 and 2000/200): the scan position
strictly increases each iteration, so `length + 1` fuel suffices. -/
theorem chunkText_total (text : List Char) (mcs ov : Nat) (hmcs : 2 ≤ mcs) :
    ∃ cs, chunkText text mcs ov = some cs := by
  by_cases h1 : (jsTrim text).length = 0
  · exact ⟨[], by rw [chunkText, if_pos h1]⟩
  · by_cases h2 : (cleanedOf text).length ≤ mcs
    · refine ⟨[⟨cleanedOf text, 0, 0, (cleanedOf text).length, none⟩], ?_⟩
      rw [chunkText, if_neg h1]
      exact if_pos h2
    · obtain ⟨out, hout, _⟩ := chunkLoop_spec (cleanedOf text) mcs ov
        (cleanShape_cleanedOf text) hmcs ((cleanedOf text).length + 1)
        ⟨0, 0, []⟩ (loopInv_init _) (by omega)
      refine ⟨out, ?_⟩
      rw [chunkText, if_neg h1]
      calc (if (cleanedOf text).length ≤ mcs then
              some [⟨cleanedOf text, 0, 0, (cleanedOf text).length, none⟩]
            else chunkLoop (cleanedOf text) mcs ov
              ((cleanedOf text).length + 1) ⟨0, 0, []⟩)
        _ = chunkLoop (cleanedOf text) mcs ov
              ((cleanedOf text).length + 1) ⟨0, 0, []⟩ := if_neg h2
        _ = some out := hout

/-- Totality of the per-section loop of `chunkDocument`. -/
theorem chunkDocGo_total (mcs ov : Nat) (hmcs : 2 ≤ mcs) :
    ∀ (secs : List DocumentSection) (g : Nat) (acc : List TextChunk),
      ∃ out, chunkDocGo mcs ov secs g acc = some out := by
  intro secs
  induction secs with
  | nil => exact fun g acc => ⟨acc, rfl⟩
  | cons sec rest ih =>
    intro g acc
    obtain ⟨cs, hcs⟩ := chunkText_total sec.content mcs ov hmcs
    obtain ⟨out, hout⟩ := ih (g + cs.length)
      (acc ++ cs.mapIdx fun i c =>
        ⟨c.content, g + i, sec.startOffset + c.startOffset,
          sec.startOffset + c.endOffset, some sec.title⟩)
    refine ⟨out, ?_⟩
    rw [chunkDocGo, hcs]
    exact hout

/-- Totality of `chunkDocument` for every `maxChunkSize ≥ 2`. -/
theorem chunkDocument_total (text : List Char) (mcs ov : Nat)
    (pres : Bool) (hmcs : 2 ≤ mcs) :
    ∃ cs, chunkDocument text mcs ov pres = some cs := by
  by_cases h1 : (jsTrim text).length = 0
  · exact ⟨[], by rw [chunkDocument, if_pos h1]⟩
  · by_cases h2 : text.length ≤ mcs
    · refine ⟨[⟨jsTrim text, 0, 0, text.length, none⟩], ?_⟩
      rw [chunkDocument, if_neg h1]
      exact if_pos h2
    · cases pres with
      | true =>
        obtain ⟨out, hout⟩ := chunkDocGo_total mcs ov hmcs
          (detectSections text) 0 []
        refine ⟨out, ?_⟩
        rw [chunkDocument, if_neg h1, if_neg h2]
        exact hout
      | false =>
        obtain ⟨out, hout⟩ := chunkText_total text mcs ov hmcs
        refine ⟨out, ?_⟩
        rw [chunkDocument, if_neg h1, if_neg h2]
        exact hout

theorem chunkText_eq_loop (text : List Char) (mcs ov : Nat)
    (h1 : ¬((jsTrim text).length = 0))
    (h2 : ¬((cleanedOf text).length ≤ mcs)) :
    chunkText text mcs ov =
      chunkLoop (cleanedOf text) mcs ov ((cleanedOf text).length + 1)
        ⟨0, 0, []⟩ := by
  rw [chunkText, if_neg h1]
  exact if_neg h2

/-! ### Lemmas for the section detector -/

theorem splitNl_ne_nil (l : List Char) : splitNl l ≠ [] := by
  cases l with
  | nil => simp [splitNl]
  | cons c rest =>
    by_cases h : c = '\n'
    · simp [splitNl, h]
    · simp only [splitNl, if_neg h]
      cases splitNl rest <;> simp

theorem joinNl_cons (l : List Char) (S : List (List Char)) (h : S ≠ []) :
    joinNl (l :: S) = l ++ '\n' :: joinNl S := by
  cases S with
  | nil => exact absurd rfl h
  | cons a t => rfl

theorem joinNl_splitNl (l : List Char) : joinNl (splitNl l) = l := by
  induction l with
  | nil => rfl
  | cons c rest ih =>
    by_cases h : c = '\n'
    · subst h
      rw [show splitNl ('\n' :: rest) = [] :: splitNl rest from by
        simp [splitNl]]
      rw [joinNl_cons _ _ (splitNl_ne_nil rest), ih]
      rfl
    · simp only [splitNl, if_neg h]
      cases he : splitNl rest with
      | nil => exact absurd he (splitNl_ne_nil rest)
      | cons hd tl =>
        rw [he] at ih
        cases tl with
        | nil => simp only [joinNl] at ih ⊢; rw [ih]
        | cons t2 ts =>
          have h1 : joinNl ((c :: hd) :: t2 :: ts) =
              (c :: hd) ++ '\n' :: joinNl (t2 :: ts) := rfl
          have h2 : joinNl (hd :: t2 :: ts) = hd ++ '\n' :: joinNl (t2 :: ts) :=
            rfl
          rw [h1]
          rw [h2] at ih
          simpa using ih

theorem headingOf_of_trim_nil (line : List Char) (h : jsTrim line = []) :
    headingOf line = none := by
  unfold headingOf
  rw [h]
  rfl

theorem exists_not_ws_of_trim_ne_nil {l : List Char} (h : jsTrim l ≠ []) :
    ∃ q, ∃ hq : q < l.length, jsWhitespace (l.get ⟨q, hq⟩) = false := by
  by_contra hcon
  push_neg at hcon
  apply h
  rw [jsTrim_eq_nil_iff]
  intro c hc
  obtain ⟨i, hi, hv⟩ := List.mem_iff_getElem.1 hc
  have := hcon i hi
  cases hx : jsWhitespace (l.get ⟨i, hi⟩) with
  | false => exact absurd hx this
  | true =>
    rw [← hv]
    exact hx

theorem sliceList_clamp (l : List Char) (a b : Nat) :
    sliceList l a b = sliceList l a (min b l.length) := by
  unfold sliceList
  have : l.take b = l.take (min b l.length) := by
    rw [List.take_eq_take]
    omega
  rw [this]

theorem drop_eq_sliceList (l : List Char) (a : Nat) :
    l.drop a = sliceList l a l.length := by
  unfold sliceList
  rw [List.take_length]

/-- The main induction for `detectSections`: from a state whose pushed
sections are contiguous, whose open section (if any) ends at the text length,
continues the last pushed section, and contains a non-whitespace character
before the current offset, the loop produces a non-empty contiguous section
list whose last section ends at the text length. -/
theorem detectGo_spec (text : List Char) :
    ∀ (lines : List (List Char)) (curOff : Nat) (cur : Option DocumentSection)
      (acc : List DocumentSection),
      text.drop curOff = joinNl lines →
      acc.Chain' (fun a b => a.endOffset = b.startOffset) →
      (cur = none → acc = []) →
      (∀ s, cur = some s → s.endOffset = text.length ∧
        (∀ c ∈ acc.getLast?, c.endOffset = s.startOffset) ∧
        ∃ p, s.startOffset ≤ p ∧ p < curOff ∧
          ∃ hp : p < text.length, jsWhitespace (text.get ⟨p, hp⟩) = false) →
      (detectGo text lines curOff cur acc ≠ [] ∧
        (detectGo text lines curOff cur acc).Chain'
          (fun a b => a.endOffset = b.startOffset) ∧
        ∀ c ∈ (detectGo text lines curOff cur acc).getLast?,
          c.endOffset = text.length) := by
  intro lines
  induction lines with
  | nil =>
    intro curOff cur acc hjoin hchain hnone hsome
    cases cur with
    | none =>
      have hacc : acc = [] := hnone rfl
      subst hacc
      have hres : detectGo text [] curOff none [] =
          [⟨"Document".data, jsTrim text, 0, text.length⟩] := by
        simp [detectGo]
      rw [hres]
      refine ⟨by simp, List.chain'_singleton _, ?_⟩
      intro c hc
      rw [show (List.getLast? [(⟨"Document".data, jsTrim text, 0,
        text.length⟩ : DocumentSection)]) = some ⟨"Document".data,
        jsTrim text, 0, text.length⟩ from rfl, Option.mem_some_iff] at hc
      subst hc
      rfl
    | some s =>
      obtain ⟨hend, hconn, p, hp1, hp2, hp3, hws⟩ := hsome s rfl
      have hcontent : jsTrim (text.drop s.startOffset) ≠ [] := by
        rw [drop_eq_sliceList]
        have hmem := mem_sliceList text s.startOffset text.length p
          (le_refl _) hp1 hp3 hp3
        exact jsTrim_ne_nil_of_mem_not_ws hmem hws
      simp only [detectGo, List.length_nil]
      rw [if_pos (List.length_pos.2 hcontent)]
      have hne2 : (acc ++ [(⟨s.title, jsTrim (text.drop s.startOffset),
          s.startOffset, s.endOffset⟩ : DocumentSection)]).length ≠ 0 := by
        simp
      rw [if_neg hne2]
      refine ⟨by simp, ?_, ?_⟩
      · exact chain'_append_singleton hchain hconn
      · intro c hc
        rw [List.getLast?_concat, Option.mem_some_iff] at hc
        subst hc
        exact hend
  | cons ln rest ih =>
    intro curOff cur acc hjoin hchain hnone hsome
    have hjoin' : text.drop (curOff + (ln.length + 1)) = joinNl rest := by
      rw [← List.drop_drop, hjoin]
      cases rest with
      | nil =>
        exact List.drop_eq_nil_of_le (by simp [joinNl])
      | cons l2 t =>
        rw [joinNl_cons ln (l2 :: t) (by simp)]
        have hx : (ln ++ '\n' :: joinNl (l2 :: t)).drop (ln.length + 1) =
            ('\n' :: joinNl (l2 :: t)).drop 1 := List.drop_append 1
        rw [hx]
        rfl
    have hjoin2 : text.drop (curOff + ln.length + 1) = joinNl rest := by
      rwa [show curOff + (ln.length + 1) = curOff + ln.length + 1 from by
        omega] at hjoin'
    cases hhead : headingOf ln with
    | none =>
      have hgo : detectGo text (ln :: rest) curOff cur acc =
          detectGo text rest (curOff + ln.length + 1) cur acc := by
        simp only [detectGo, hhead]
      rw [hgo]
      refine ih (curOff + ln.length + 1) cur acc hjoin2 hchain hnone ?_
      intro s hs
      obtain ⟨hend, hconn, p, hp1, hp2, hp3, hws⟩ := hsome s hs
      exact ⟨hend, hconn, p, hp1, by omega, hp3, hws⟩
    | some title =>
      have htr : jsTrim ln ≠ [] := by
        intro h
        rw [headingOf_of_trim_nil ln h] at hhead
        cases hhead
      obtain ⟨q, hq, hwsq⟩ := exists_not_ws_of_trim_ne_nil htr
      have hgl : text[curOff + q]? = some (ln.get ⟨q, hq⟩) := by
        have h1 : (text.drop curOff)[q]? = text[curOff + q]? :=
          List.getElem?_drop text curOff q
        rw [← h1, hjoin]
        cases rest with
        | nil =>
          show ln[q]? = some (ln.get ⟨q, hq⟩)
          rw [List.getElem?_eq_getElem hq]
          rfl
        | cons l2 t =>
          rw [joinNl_cons ln (l2 :: t) (by simp)]
          rw [List.getElem?_append_left hq]
          rw [List.getElem?_eq_getElem hq]
          rfl
      have hplen : curOff + q < text.length :=
        (List.getElem?_eq_some_iff.1 hgl).1
      have hwsp : jsWhitespace (text.get ⟨curOff + q, hplen⟩) = false := by
        have h2 : text[curOff + q]? = some (text.get ⟨curOff + q, hplen⟩) := by
          rw [List.getElem?_eq_getElem hplen]
          rfl
        rw [h2, Option.some_inj] at hgl
        rw [hgl]
        exact hwsq
      have hwit : ∃ p, curOff ≤ p ∧ p < curOff + ln.length + 1 ∧
          ∃ hp : p < text.length, jsWhitespace (text.get ⟨p, hp⟩) = false :=
        ⟨curOff + q, by omega, by omega, hplen, hwsp⟩
      cases cur with
      | none =>
        have hacc : acc = [] := hnone rfl
        subst hacc
        have hgo : detectGo text (ln :: rest) curOff none [] =
            detectGo text rest (curOff + ln.length + 1)
              (some ⟨title, [], curOff, text.length⟩) [] := by
          simp only [detectGo, hhead]
        rw [hgo]
        refine ih (curOff + ln.length + 1)
          (some ⟨title, [], curOff, text.length⟩) [] hjoin2 (by simp)
          (by intro h; cases h) ?_
        intro s hs
        rw [Option.some_inj] at hs
        subst hs
        exact ⟨rfl, by simp, hwit⟩
      | some s =>
        obtain ⟨hend, hconn, p, hp1, hp2, hp3, hws⟩ := hsome s rfl
        have hcontent : jsTrim (sliceList text s.startOffset curOff) ≠ [] := by
          rw [sliceList_clamp]
          have hmem := mem_sliceList text s.startOffset
            (min curOff text.length) p (min_le_right _ _) hp1
            (by omega) hp3
          exact jsTrim_ne_nil_of_mem_not_ws hmem hws
        have hgo : detectGo text (ln :: rest) curOff (some s) acc =
            detectGo text rest (curOff + ln.length + 1)
              (some ⟨title, [], curOff, text.length⟩)
              (acc ++ [⟨s.title, jsTrim (sliceList text s.startOffset curOff),
                s.startOffset, curOff⟩]) := by
          simp only [detectGo, hhead]
          rw [if_pos (List.length_pos.2 hcontent)]
        rw [hgo]
        refine ih (curOff + ln.length + 1)
          (some ⟨title, [], curOff, text.length⟩)
          (acc ++ [⟨s.title, jsTrim (sliceList text s.startOffset curOff),
            s.startOffset, curOff⟩]) hjoin2
          (chain'_append_singleton hchain hconn) (by intro h; cases h) ?_
        intro s2 hs2
        rw [Option.some_inj] at hs2
        subst hs2
        refine ⟨rfl, ?_, hwit⟩
        intro c hc
        rw [List.getLast?_concat, Option.mem_some_iff] at hc
        subst hc
        rfl

/-! ### Claim C4 -/

/-- Claim C4 as frozen is false: text before the first detected heading
belongs to no section, so the sections need not cover the input from offset
0.  For `"hello\n# T\nbody"` the only section starts at offset 6. -/
theorem c4_counterexample :
    detectSections ("hello\n# T\nbody".data) =
      [⟨"T".data, "# T\nbody".data, 6, 14⟩] ∧ (6 : Nat) ≠ 0 :=
  ⟨by decide, by decide⟩

/-- Claim C4, amended: `detectSections` returns a non-empty ordered sequence
of sections in which each section's end offset equals the next section's
start offset and the last section's end offset equals the length of the
text; the first section starts at the first detected heading line (which is
offset 0 only when nothing precedes it; with no heading at all the single
`Document` section spans the whole text). -/
theorem c4_detectSections (text : List Char) :
    detectSections text ≠ [] ∧
    (detectSections text).Chain' (fun a b => a.endOffset = b.startOffset) ∧
    ∀ c ∈ (detectSections text).getLast?, c.endOffset = text.length := by
  have h := detectGo_spec text (splitNl text) 0 none [] (by
    rw [List.drop_zero, joinNl_splitNl]) (by simp) (fun _ => rfl)
    (by intro s hs; cases hs)
  exact h

/-! ### Claim C3 -/

/-- Claim C3 as frozen is false: the chunk offsets index into the *cleaned*
text, not the source text.  The input `"aa. bb. cc  "` has length 12 and is
longer than `maxChunkSize = 5` and not whitespace-only, but the last chunk
ends at offset 10 (the cleaned length), so the spans do not cover the input
up to its length. -/
theorem c3_counterexample :
    ("aa. bb. cc  ".data).length = 12 ∧
    chunkText ("aa. bb. cc  ".data) 5 2 =
      some [⟨"aa.".data, 0, 0, 3, none⟩, ⟨"a.".data, 1, 1, 3, none⟩,
        ⟨"bb.".data, 2, 3, 7, none⟩, ⟨"b. cc".data, 3, 5, 10, none⟩,
        ⟨"cc".data, 4, 8, 10, none⟩] ∧
    (10 : Nat) ≠ 12 :=
  ⟨by decide, by decide, by decide⟩

/-- Claim C3, amended: for `maxChunkSize ≥ 2` and an input whose cleaned
(whitespace-collapsed, trimmed) text is longer than `maxChunkSize`,
`chunkText` terminates and returns a non-empty chunk list in which every
chunk has `startOffset < endOffset`, the offsets — which index into the
cleaned text — cover that cleaned text with no gap: the first chunk starts
at 0, each chunk's start offset is at most the previous chunk's end offset,
and the last chunk ends at the cleaned text's length. -/
theorem c3_chunk_offsets (text : List Char) (mcs ov : Nat)
    (hmcs : 2 ≤ mcs) (hlong : mcs < (cleanedOf text).length) :
    ∃ cs, chunkText text mcs ov = some cs ∧ cs ≠ [] ∧
      (∀ c ∈ cs, c.startOffset < c.endOffset) ∧
      cs.Chain' (fun a b => b.startOffset ≤ a.endOffset) ∧
      (∀ c ∈ cs.head?, c.startOffset = 0) ∧
      (∀ c ∈ cs.getLast?, c.endOffset = (cleanedOf text).length) := by
  have h1 : ¬((jsTrim text).length = 0) := by
    intro h
    have htr : cleanedOf text = [] :=
      (cleanedOf_eq_nil_iff text).2 (List.length_eq_zero.1 h)
    rw [htr] at hlong
    simp at hlong
  obtain ⟨out, hout, ha, hb, hc, hd, he⟩ := chunkLoop_spec (cleanedOf text)
    mcs ov (cleanShape_cleanedOf text) hmcs ((cleanedOf text).length + 1)
    ⟨0, 0, []⟩ (loopInv_init _) (by omega)
  refine ⟨out, ?_, ?_, fun c hcm => (ha c hcm).1, hb, hd, he⟩
  · rw [chunkText_eq_loop text mcs ov h1 (by omega)]
    exact hout
  · intro hnil
    have := hc hnil
    omega

/-- Witness for `c3_chunk_offsets` at `"aa. bb. cc"` with sizes 5/2. -/
theorem c3_chunk_offsets_witness :
    (2 ≤ 5 ∧ 5 < (cleanedOf ("aa. bb. cc".data)).length) ∧
    (∃ cs, chunkText ("aa. bb. cc".data) 5 2 = some cs ∧ cs ≠ [] ∧
      (∀ c ∈ cs, c.startOffset < c.endOffset) ∧
      cs.Chain' (fun a b => b.startOffset ≤ a.endOffset) ∧
      (∀ c ∈ cs.head?, c.startOffset = 0) ∧
      (∀ c ∈ cs.getLast?, c.endOffset = (cleanedOf ("aa. bb. cc".data)).length)) :=
  ⟨⟨by decide, by decide⟩,
    c3_chunk_offsets ("aa. bb. cc".data) 5 2 (by decide) (by decide)⟩

/-- Claim C2 as frozen is false: `chunkText` collapses internal whitespace
runs, so for the four-character input `"a  b"` (length at most the chunk
size, not whitespace-only) the single returned chunk's content is `"a b"`,
which differs from the trimmed input `"a  b"`. -/
theorem c2_counterexample :
    chunkText ("a  b".data) 1000 100 =
      some [⟨"a b".data, 0, 0, 3, none⟩] ∧
    jsTrim ("a  b".data) = "a  b".data ∧ "a b".data ≠ "a  b".data := by
  refine ⟨by decide, by decide, by decide⟩

/-- Claim C2, amended: for every input whose length is at most
`maxChunkSize` and that is not empty or whitespace-only, `chunkText` returns
exactly one chunk whose content is the whitespace-collapsed, trimmed input,
with index 0, start offset 0 and end offset equal to that content's
length. -/
theorem c2_chunkText_short (text : List Char) (maxChunkSize overlapSize : Nat)
    (hne : jsTrim text ≠ []) (hlen : text.length ≤ maxChunkSize) :
    chunkText text maxChunkSize overlapSize =
      some [⟨cleanedOf text, 0, 0, (cleanedOf text).length, none⟩] := by
  unfold chunkText
  rw [if_neg (by simpa [List.length_eq_zero] using hne)]
  rw [if_pos (le_trans (cleanedOf_length_le text) hlen)]

/-- Witness for `c2_chunkText_short` at `"a b"`, chunk size 10. -/
theorem c2_chunkText_short_witness :
    jsTrim ("a b".data) ≠ [] ∧ ("a b".data).length ≤ 10 ∧
    chunkText ("a b".data) 10 100 =
      some [⟨cleanedOf ("a b".data), 0, 0, (cleanedOf ("a b".data)).length,
        none⟩] :=
  ⟨by decide, by decide, c2_chunkText_short ("a b".data) 10 100 (by decide)
    (by decide)⟩

/-! ### Claim C7 -/

theorem c7_loop_stuck :
    ∀ fuel, chunkLoop (cleanedOf ("a b".data)) 1 1 fuel c7State = none := by
  intro fuel
  induction fuel with
  | zero => decide
  | succ n ih =>
    show chunkLoop (cleanedOf ("a b".data)) 1 1 (n + 1) c7State = none
    rw [chunkLoop]
    rw [if_pos (by decide)]
    rw [show chunkStep (cleanedOf ("a b".data)) 1 1 c7State = c7State from by
      decide]
    exact ih

/-- Claim C7 fails on the code: for the input `"a b"` with
`maxChunkSize = 1` and `overlapSize = 1`, after the first iteration the scan
position is 1, the second iteration produces an empty (whitespace-only)
chunk candidate that is not pushed, and the guard compares
`endPosition - overlapSize = 1` against the start offset 0 of the *first*
chunk, so the position stays at 1 forever: `chunkStep` has a fixed point and
the loop returns `none` for every fuel (the JS loop never terminates). -/
theorem c7_nontermination :
    chunkText ("a b".data) 1 1 = none ∧
    chunkStep (cleanedOf ("a b".data)) 1 1 c7State = c7State ∧
    ∀ fuel, chunkLoop (cleanedOf ("a b".data)) 1 1 fuel c7State = none :=
  ⟨by decide, by decide, c7_loop_stuck⟩

/-! ### Claim C1 -/

theorem nodup_filterMap_ids {α β : Type} (key : α → List Char)
    (key2 : β → List Char) (f : α → Option β)
    (hf : ∀ a b, f a = some b → key2 b = key a) :
    ∀ l : List α, (l.map key).Nodup → ((l.filterMap f).map key2).Nodup := by
  intro l
  induction l with
  | nil => intro _; simp
  | cons a l ih =>
    intro hnd
    rw [List.map_cons, List.nodup_cons] at hnd
    have hsub : ∀ x ∈ (l.filterMap f).map key2, x ∈ l.map key := by
      intro x hx
      rw [List.mem_map] at hx
      obtain ⟨b, hb, hxb⟩ := hx
      rw [List.mem_filterMap] at hb
      obtain ⟨a', ha', hfa'⟩ := hb
      rw [List.mem_map]
      exact ⟨a', ha', by rw [← hxb, hf a' b hfa']⟩
    cases hfa : f a with
    | none =>
      rw [List.filterMap_cons_none hfa]
      exact ih hnd.2
    | some b =>
      rw [List.filterMap_cons_some hfa, List.map_cons, List.nodup_cons]
      refine ⟨?_, ih hnd.2⟩
      intro hmem
      rw [hf a b hfa] at hmem
      exact hnd.1 (hsub _ hmem)

/-- Claim C1: `searchByEmbedding` (for any distance capability, query,
threshold, type filter and limit, over a store whose content ids are unique)
returns each content item at most once; every result row is a `completed`
content row of the store matching the type filter, paired with the text and
section of a chunk of that item whose similarity is strictly above the
threshold and maximal among the item's chunks with a non-null embedding; the
results are sorted by descending similarity and number at most `limit`. -/
theorem c1_searchByEmbedding (dist : List ℚ → List ℚ → ℚ)
    (queryEmbedding : List ℚ) (limit : Nat) (threshold : ℚ)
    (typeFilter : Option CType) (db : DB)
    (hids : (db.rows.map Row.id).Nodup) :
    (((searchByEmbedding dist queryEmbedding limit threshold typeFilter
      db).map (fun r => r.row.id)).Nodup) ∧
    (searchByEmbedding dist queryEmbedding limit threshold typeFilter
      db).length ≤ limit ∧
    (searchByEmbedding dist queryEmbedding limit threshold typeFilter
      db).Pairwise simDescRel ∧
    ∀ r ∈ searchByEmbedding dist queryEmbedding limit threshold typeFilter db,
      r.row ∈ db.rows ∧ r.row.status = CStatus.completed ∧
      (∀ ty, typeFilter = some ty → r.row.rtype = ty) ∧
      threshold < r.similarity ∧
      (∃ c ∈ db.chunks, c.contentId = r.row.id ∧ ∃ e, c.embedding = some e ∧
        r.similarity = 1 - dist e queryEmbedding ∧
        r.matchedChunk = c.content ∧ r.matchedSection = c.sectionTitle) ∧
      (∀ c ∈ db.chunks, c.contentId = r.row.id → ∀ e, c.embedding = some e →
        1 - dist e queryEmbedding ≤ r.similarity) := by
  let score : ChunkRow → Option (ChunkRow × ℚ) := fun c =>
    match c.embedding with
    | none => none
    | some e =>
      if threshold < 1 - dist e queryEmbedding then
        some (c, 1 - dist e queryEmbedding)
      else none
  let scored := db.chunks.filterMap score
  let pick : Row → Option SearchResult := fun t =>
    if t.status = CStatus.completed ∧
        (∀ ty, typeFilter = some ty → t.rtype = ty) then
      match (scored.filter fun p => p.1.contentId = t.id).argmax
          (fun p => p.2) with
      | some p => some ⟨t, p.2, p.1.content, p.1.sectionTitle⟩
      | none => none
    else none
  let joined := db.rows.filterMap pick
  have hdef : searchByEmbedding dist queryEmbedding limit threshold typeFilter
      db = (joined.insertionSort simDescRel).take limit := rfl
  have hscored : ∀ p ∈ scored, p.1 ∈ db.chunks ∧ threshold < p.2 ∧
      ∃ e, p.1.embedding = some e ∧ p.2 = 1 - dist e queryEmbedding := by
    intro p hp
    rw [List.mem_filterMap] at hp
    obtain ⟨c, hc, hcp⟩ := hp
    show p.1 ∈ db.chunks ∧ _
    cases he : c.embedding with
    | none => rw [show score c = none from by simp [score, he]] at hcp; cases hcp
    | some e =>
      by_cases hth : threshold < 1 - dist e queryEmbedding
      · rw [show score c = some (c, 1 - dist e queryEmbedding) from by
          simp [score, he, if_pos hth]] at hcp
        rw [← Option.some_inj.1 hcp]
        exact ⟨hc, hth, e, he, rfl⟩
      · rw [show score c = none from by simp [score, he, if_neg hth]] at hcp
        cases hcp
  have hscored2 : ∀ c ∈ db.chunks, ∀ e, c.embedding = some e →
      threshold < 1 - dist e queryEmbedding →
      (c, 1 - dist e queryEmbedding) ∈ scored := by
    intro c hc e he hth
    rw [List.mem_filterMap]
    exact ⟨c, hc, by simp [score, he, if_pos hth]⟩
  have hpick : ∀ t r, pick t = some r → r.row = t ∧
      t.status = CStatus.completed ∧
      (∀ ty, typeFilter = some ty → t.rtype = ty) ∧
      threshold < r.similarity ∧
      (∃ c ∈ db.chunks, c.contentId = t.id ∧ ∃ e, c.embedding = some e ∧
        r.similarity = 1 - dist e queryEmbedding ∧
        r.matchedChunk = c.content ∧ r.matchedSection = c.sectionTitle) ∧
      (∀ c ∈ db.chunks, c.contentId = t.id → ∀ e, c.embedding = some e →
        1 - dist e queryEmbedding ≤ r.similarity) := by
    intro t r hr
    show r.row = t ∧ _
    by_cases hP : t.status = CStatus.completed ∧
        (∀ ty, typeFilter = some ty → t.rtype = ty)
    · rw [show pick t = (match (scored.filter
          fun p => p.1.contentId = t.id).argmax (fun p => p.2) with
        | some p => some ⟨t, p.2, p.1.content, p.1.sectionTitle⟩
        | none => none) from by simp [pick, if_pos hP]] at hr
      cases hm : (scored.filter fun p => p.1.contentId = t.id).argmax
          (fun p => p.2) with
      | none => rw [hm] at hr; cases hr
      | some p =>
        rw [hm] at hr
        have hrr : r = ⟨t, p.2, p.1.content, p.1.sectionTitle⟩ :=
          (Option.some_inj.1 hr).symm
        have hpm : p ∈ (scored.filter fun p => p.1.contentId = t.id) :=
          List.argmax_mem hm
        rw [List.mem_filter] at hpm
        obtain ⟨hpsc, hpid⟩ := hpm
        have hpid' : p.1.contentId = t.id := by
          simpa using hpid
        obtain ⟨hpc, hpth, e, hpe, hpsim⟩ := hscored p hpsc
        subst hrr
        refine ⟨rfl, hP.1, hP.2, hpth, ⟨p.1, hpc, hpid', e, hpe, hpsim, rfl,
          rfl⟩, ?_⟩
        intro c hc hcid e' he'
        by_cases hth : threshold < 1 - dist e' queryEmbedding
        · have hin : (c, 1 - dist e' queryEmbedding) ∈
              (scored.filter fun p => p.1.contentId = t.id) := by
            rw [List.mem_filter]
            exact ⟨hscored2 c hc e' he' hth, by simpa using hcid⟩
          have := List.not_lt_of_mem_argmax hin hm
          simpa using le_of_not_lt this
        · have h1 : 1 - dist e' queryEmbedding ≤ threshold := le_of_not_lt hth
          exact le_of_lt (lt_of_le_of_lt h1 hpth)
    · rw [show pick t = none from by simp [pick, if_neg hP]] at hr
      cases hr
  have hjoinedmem : ∀ r ∈ joined, r.row ∈ db.rows ∧
      r.row.status = CStatus.completed ∧
      (∀ ty, typeFilter = some ty → r.row.rtype = ty) ∧
      threshold < r.similarity ∧
      (∃ c ∈ db.chunks, c.contentId = r.row.id ∧ ∃ e, c.embedding = some e ∧
        r.similarity = 1 - dist e queryEmbedding ∧
        r.matchedChunk = c.content ∧ r.matchedSection = c.sectionTitle) ∧
      (∀ c ∈ db.chunks, c.contentId = r.row.id → ∀ e, c.embedding = some e →
        1 - dist e queryEmbedding ≤ r.similarity) := by
    intro r hr
    rw [List.mem_filterMap] at hr
    obtain ⟨t, ht, hrt⟩ := hr
    obtain ⟨hrow, h1, h2, h3, h4, h5⟩ := hpick t r hrt
    subst hrow
    exact ⟨ht, h1, h2, h3, h4, h5⟩
  have hperm : (joined.insertionSort simDescRel).Perm joined :=
    List.perm_insertionSort simDescRel joined
  refine ⟨?_, ?_, ?_, ?_⟩
  · rw [hdef, List.map_take]
    have hnj : (joined.map (fun r => r.row.id)).Nodup :=
      nodup_filterMap_ids Row.id (fun r => r.row.id) pick
        (fun t r hr => by
          show r.row.id = Row.id t
          rw [(hpick t r hr).1]) db.rows hids
    have hns : ((joined.insertionSort simDescRel).map
        (fun r => r.row.id)).Nodup :=
      ((hperm.map (fun r => r.row.id)).nodup_iff).2 hnj
    exact hns.sublist (List.take_sublist _ _)
  · rw [hdef]
    exact List.length_take_le _ _
  · rw [hdef]
    exact (List.sorted_insertionSort simDescRel joined).sublist
      (List.take_sublist _ _)
  · intro r hr
    rw [hdef] at hr
    have hr2 : r ∈ joined.insertionSort simDescRel :=
      List.take_subset _ _ hr
    exact hjoinedmem r (hperm.subset hr2)

/-! ### Claim C8 -/

theorem batchGo_spec (g : List Char → List ℚ)
    (em : Nat → List (List Char) → Except (List Char) (List (List ℚ)))
    (hem : ∀ p ts, em p ts = Except.ok (ts.map g))
    (texts : List (List Char)) (bs : Nat) :
    ∀ rem i acc, texts.length ≤ (i + rem) * bs →
      batchGo em texts bs rem i acc =
        Except.ok (acc ++ (texts.drop (i * bs)).map g) := by
  have hge : ∀ ts, generateEmbeddings em 5 ts = Except.ok (ts.map g) := by
    intro ts
    unfold generateEmbeddings
    rw [hem 5 ts]
  intro rem
  induction rem with
  | zero =>
    intro i acc hlen
    have hd : texts.drop (i * bs) = [] :=
      List.drop_eq_nil_of_le (by simpa using hlen)
    rw [hd]
    simp [batchGo]
  | succ n ih =>
    intro i acc hlen
    have hbatch : (texts.take (min (i * bs + bs) texts.length)).drop (i * bs)
        = (texts.drop (i * bs)).take bs := by
      rw [List.drop_take]
      rw [List.take_eq_take]
      simp only [List.length_drop]
      omega
    simp only [batchGo]
    rw [hge]
    dsimp only
    rw [ih (i + 1) _ (by
      rw [show (i + 1) + n = i + (n + 1) from by omega]
      exact hlen)]
    congr 1
    rw [List.append_assoc]
    congr 1
    rw [← List.map_append]
    congr 1
    rw [hbatch]
    rw [show (i + 1) * bs = i * bs + bs from by ring]
    rw [← List.drop_drop]
    exact List.take_append_drop bs (texts.drop (i * bs))

/-- Claim C8 as frozen is false for batch size 0: with a non-empty input the
JS batch count `Math.ceil(length / 0)` is `Infinity` and the loop never
exits, so no vector list is returned (the model yields `none`), instead of
the required one-vector-per-text result. -/
theorem c8_counterexample :
    batchGenerateEmbeddings
      (fun _ ts => Except.ok (ts.map fun t => [(t.length : ℚ)]))
      [['a']] 0 = none ∧
    (none : Option (Except (List Char) (List (List ℚ)))) ≠
      some (Except.ok [[(1 : ℚ)]]) :=
  ⟨rfl, by simp⟩

/-- Claim C8, amended: for every *positive* batch size, every parallelism
setting accepted by the capability, and every order-preserving per-batch
embedding capability (one that maps each batch element-wise through a fixed
vector function `g`), `batchGenerateEmbeddings` terminates and returns
exactly the element-wise image of the whole input list — one vector per
input text, with output `i` corresponding to input `i`, independent of the
batch size. -/
theorem c8_batch_order_preserving (g : List Char → List ℚ)
    (em : Nat → List (List Char) → Except (List Char) (List (List ℚ)))
    (hem : ∀ p ts, em p ts = Except.ok (ts.map g))
    (texts : List (List Char)) (batchSize : Nat) (hbs : 1 ≤ batchSize) :
    batchGenerateEmbeddings em texts batchSize =
      some (Except.ok (texts.map g)) := by
  by_cases hnil : texts.length = 0
  · have hte : texts = [] := List.length_eq_zero.1 hnil
    subst hte
    rfl
  · rw [batchGenerateEmbeddings, if_neg hnil, if_neg (by omega)]
    have hQ : texts.length ≤
        (0 + (texts.length + batchSize - 1) / batchSize) * batchSize := by
      rw [Nat.zero_add, Nat.mul_comm]
      have hdm := Nat.div_add_mod (texts.length + batchSize - 1) batchSize
      have hr := Nat.mod_lt (texts.length + batchSize - 1)
        (show 0 < batchSize from by omega)
      omega
    rw [batchGo_spec g em hem texts batchSize
      ((texts.length + batchSize - 1) / batchSize) 0 [] hQ]
    simp

/-- Witness for `c8_batch_order_preserving`: three texts, batch size 2. -/
theorem c8_batch_order_preserving_witness :
    (1 ≤ 2) ∧
    batchGenerateEmbeddings
      (fun _ ts => Except.ok (ts.map fun t => [(t.length : ℚ)]))
      ["a".data, "bb".data, "ccc".data] 2 =
      some (Except.ok (["a".data, "bb".data, "ccc".data].map
        fun t => [(t.length : ℚ)])) :=
  ⟨by decide, c8_batch_order_preserving (fun t => [(t.length : ℚ)])
    (fun _ ts => Except.ok (ts.map fun t => [(t.length : ℚ)]))
    (fun _ _ => rfl) ["a".data, "bb".data, "ccc".data] 2 (by decide)⟩

/-- Witness for `c1_searchByEmbedding` on the concrete fixture `searchDB`
(row `A` completed with best chunk similarity 2, row `B` pending). -/
theorem c1_searchByEmbedding_witness :
    ((searchDB.rows.map Row.id).Nodup) ∧
    ((((searchByEmbedding negHeadDist [] 20 0 none searchDB).map
      (fun r => r.row.id)).Nodup) ∧
    (searchByEmbedding negHeadDist [] 20 0 none searchDB).length ≤ 20 ∧
    (searchByEmbedding negHeadDist [] 20 0 none searchDB).Pairwise
      simDescRel ∧
    ∀ r ∈ searchByEmbedding negHeadDist [] 20 0 none searchDB,
      r.row ∈ searchDB.rows ∧ r.row.status = CStatus.completed ∧
      (∀ ty, (none : Option CType) = some ty → r.row.rtype = ty) ∧
      (0 : ℚ) < r.similarity ∧
      (∃ c ∈ searchDB.chunks, c.contentId = r.row.id ∧ ∃ e,
        c.embedding = some e ∧
        r.similarity = 1 - negHeadDist e [] ∧
        r.matchedChunk = c.content ∧ r.matchedSection = c.sectionTitle) ∧
      (∀ c ∈ searchDB.chunks, c.contentId = r.row.id → ∀ e,
        c.embedding = some e →
        1 - negHeadDist e [] ≤ r.similarity)) :=
  ⟨by decide, c1_searchByEmbedding negHeadDist [] 20 0 none searchDB
    (by decide)⟩

/-! ### Claim C10 -/

/-- Claim C10 as frozen is false for an empty provided message: the source
stores `errorMessage || null`, so the empty string (falsy) is stored as
`null`, not as the provided message. -/
theorem c10_counterexample :
    (updateStatus 5 ("A".data) CStatus.failed (some []) ⟨[rowA], []⟩).rows =
      [⟨"A".data, CType.webpage, none, "tA".data, "dA".data, none, none,
        CStatus.failed, none, 1, 0, 5, none⟩] ∧
    (none : Option (List Char)) ≠ some [] :=
  ⟨by decide, by simp⟩

/-- Claim C10, amended: every `updateStatus` call, for every target status,
increments `processing_attempts` of the matching row by exactly 1, sets
`error_message` to the provided message when that message is truthy and to
`null` when no message or an empty message is given, refreshes `updated_at`
to the current time, sets `completed_at` to the current time exactly when
the new status is `completed` and to `null` otherwise, sets the status, and
leaves every other column and every other row unchanged. -/
theorem c10_updateStatus_effect (now : Nat) (id : List Char) (st : CStatus)
    (errMsg : Option (List Char)) (db : DB) (i : Nat)
    (hi : i < db.rows.length) :
    (updateStatus now id st errMsg db).chunks = db.chunks ∧
    ∃ hi' : i < (updateStatus now id st errMsg db).rows.length,
      ((db.rows.get ⟨i, hi⟩).id = id →
        (updateStatus now id st errMsg db).rows.get ⟨i, hi'⟩ =
          ⟨(db.rows.get ⟨i, hi⟩).id, (db.rows.get ⟨i, hi⟩).rtype,
            (db.rows.get ⟨i, hi⟩).url, (db.rows.get ⟨i, hi⟩).title,
            (db.rows.get ⟨i, hi⟩).description,
            (db.rows.get ⟨i, hi⟩).contentPreview,
            (db.rows.get ⟨i, hi⟩).imageUrl, st,
            (match errMsg with
              | some m => if 0 < m.length then some m else none
              | none => none),
            (db.rows.get ⟨i, hi⟩).processingAttempts + 1,
            (db.rows.get ⟨i, hi⟩).createdAt, now,
            (if st = CStatus.completed then some now else none)⟩) ∧
      (¬((db.rows.get ⟨i, hi⟩).id = id) →
        (updateStatus now id st errMsg db).rows.get ⟨i, hi'⟩ =
          db.rows.get ⟨i, hi⟩) := by
  refine ⟨rfl, ?_⟩
  have hlen : (updateStatus now id st errMsg db).rows.length =
      db.rows.length := by
    simp [updateStatus]
  refine ⟨by omega, ?_, ?_⟩
  · intro hid
    show ((db.rows.map _).get ⟨i, _⟩) = _
    simp only [List.get_eq_getElem] at hid ⊢
    rw [List.getElem_map, if_pos hid]
    cases errMsg <;> rfl
  · intro hid
    show ((db.rows.map _).get ⟨i, _⟩) = _
    simp only [List.get_eq_getElem] at hid ⊢
    rw [List.getElem_map, if_neg hid]

/-- Witness for `c10_updateStatus_effect` on the one-row store `[rowA]`. -/
theorem c10_updateStatus_effect_witness :
    (0 < ([rowA] : List Row).length) ∧
    ((updateStatus 7 ("A".data) CStatus.completed (some "oops".data)
      ⟨[rowA], []⟩).chunks = ([] : List ChunkRow) ∧
    ∃ hi' : 0 < (updateStatus 7 ("A".data) CStatus.completed
        (some "oops".data) ⟨[rowA], []⟩).rows.length,
      ((([rowA] : List Row).get ⟨0, by decide⟩).id = "A".data →
        (updateStatus 7 ("A".data) CStatus.completed (some "oops".data)
          ⟨[rowA], []⟩).rows.get ⟨0, hi'⟩ =
          ⟨(([rowA] : List Row).get ⟨0, by decide⟩).id,
            (([rowA] : List Row).get ⟨0, by decide⟩).rtype,
            (([rowA] : List Row).get ⟨0, by decide⟩).url,
            (([rowA] : List Row).get ⟨0, by decide⟩).title,
            (([rowA] : List Row).get ⟨0, by decide⟩).description,
            (([rowA] : List Row).get ⟨0, by decide⟩).contentPreview,
            (([rowA] : List Row).get ⟨0, by decide⟩).imageUrl,
            CStatus.completed,
            (match some ("oops".data) with
              | some m => if 0 < m.length then some m else none
              | none => none),
            (([rowA] : List Row).get ⟨0, by decide⟩).processingAttempts + 1,
            (([rowA] : List Row).get ⟨0, by decide⟩).createdAt, 7,
            (if CStatus.completed = CStatus.completed then some 7
              else none)⟩) ∧
      (¬((([rowA] : List Row).get ⟨0, by decide⟩).id = "A".data) →
        (updateStatus 7 ("A".data) CStatus.completed (some "oops".data)
          ⟨[rowA], []⟩).rows.get ⟨0, hi'⟩ =
          ([rowA] : List Row).get ⟨0, by decide⟩)) :=
  ⟨by decide, c10_updateStatus_effect 7 ("A".data) CStatus.completed
    (some "oops".data) ⟨[rowA], []⟩ 0 (by decide)⟩

/-! ### Claim C6 -/

/-- Claim C6 as frozen is false: `create` is called by the services with
`status: 'completed'` and no `completed_at` (which then defaults to `null`),
producing a reachable state that violates the invariant. -/
theorem c6_counterexample :
    createRow 0 ⟨"X".data, CType.webpage, some "u".data, "t".data, "d".data,
        none, none, CStatus.completed, none, none⟩ ⟨[], []⟩ =
      Except.ok ⟨[⟨"X".data, CType.webpage, some "u".data, "t".data,
        "d".data, none, none, CStatus.completed, none, 0, 0, 0, none⟩],
        []⟩ ∧
    ¬ CompletedInv ⟨[⟨"X".data, CType.webpage, some "u".data, "t".data,
      "d".data, none, none, CStatus.completed, none, 0, 0, 0, none⟩], []⟩ :=
  ⟨rfl, by decide⟩

/-- Claim C6, amended: `updateStatus` preserves the invariant
"`status = completed` implies `completed_at` set" unconditionally (it writes
`completed_at = now` exactly for the `completed` status), while `create` and
`update` preserve it only when the written data itself satisfies it — which
the services' create-with-`completed` calls do not, so the invariant does
not hold in every reachable state. -/
theorem c6_completedAt_invariant :
    (∀ (now : Nat) (id : List Char) (st : CStatus)
      (errMsg : Option (List Char)) (db : DB), CompletedInv db →
      CompletedInv (updateStatus now id st errMsg db)) ∧
    (∀ (now : Nat) (d : NewRow) (db db' : DB), CompletedInv db →
      (d.status = CStatus.completed → d.completedAt ≠ none) →
      createRow now d db = Except.ok db' → CompletedInv db') ∧
    (∀ (now : Nat) (id : List Char) (p : RowPatch) (db : DB),
      CompletedInv db →
      (∀ r ∈ db.rows, r.id = id →
        (p.status.getD r.status = CStatus.completed →
          p.completedAt.getD r.completedAt ≠ none)) →
      CompletedInv (updateRow now id p db)) := by
  refine ⟨?_, ?_, ?_⟩
  · intro now id st errMsg db hinv r hr hst
    simp only [updateStatus] at hr
    rw [List.mem_map] at hr
    obtain ⟨r0, hr0, hrr⟩ := hr
    by_cases hid : r0.id = id
    · rw [if_pos hid] at hrr
      subst hrr
      simp only at hst ⊢
      rw [if_pos hst]
      simp
    · rw [if_neg hid] at hrr
      subst hrr
      exact hinv r0 hr0 hst
  · intro now d db db' hinv hd hcr r hr hst
    unfold createRow at hcr
    by_cases hdup : db.rows.any (fun r => r.id = d.id)
    · rw [if_pos hdup] at hcr
      cases hcr
    · rw [if_neg hdup] at hcr
      rw [← Option.some_inj.1 (congrArg some (Except.ok.inj hcr))] at hr
      simp only at hr
      rw [List.mem_append] at hr
      rcases hr with hr | hr
      · exact hinv r hr hst
      · rw [List.mem_singleton] at hr
        subst hr
        simp only at hst
        exact hd hst
  · intro now id p db hinv hp r hr hst
    simp only [updateRow] at hr
    rw [List.mem_map] at hr
    obtain ⟨r0, hr0, hrr⟩ := hr
    by_cases hid : r0.id = id
    · rw [if_pos hid] at hrr
      subst hrr
      simp only at hst ⊢
      exact hp r0 hr0 hid hst
    · rw [if_neg hid] at hrr
      subst hrr
      exact hinv r0 hr0 hst

/-- Witness for `c6_completedAt_invariant`: each conjunct applied at a
concrete store. -/
theorem c6_completedAt_invariant_witness :
    (CompletedInv searchDB ∧
      CompletedInv (updateStatus 3 ("A".data) CStatus.completed none
        searchDB)) ∧
    CompletedInv ⟨[⟨"Y".data, CType.image, none, "t".data, "d".data, none,
      none, CStatus.completed, none, 0, 4, 4, some 4⟩], []⟩ ∧
    CompletedInv (updateRow 5 ("A".data)
      ⟨some "t2".data, none, none, none, some CStatus.failed, some none,
        none⟩ searchDB) := by
  have h1 : CompletedInv searchDB := by decide
  refine ⟨⟨h1, c6_completedAt_invariant.1 3 ("A".data) CStatus.completed
    none searchDB h1⟩, ?_, ?_⟩
  · exact c6_completedAt_invariant.2.1 4
      ⟨"Y".data, CType.image, none, "t".data, "d".data, none, none,
        CStatus.completed, none, some 4⟩ ⟨[], []⟩ _ (by decide)
      (by intro _; simp) (by rfl)
  · exact c6_completedAt_invariant.2.2 5 ("A".data)
      ⟨some "t2".data, none, none, none, some CStatus.failed, some none,
        none⟩ searchDB h1 (by decide)

/-! ### Repository tracking lemmas for the service proofs -/

theorem find?_id_map (f : Row → Row) (hf : ∀ r, (f r).id = r.id)
    (id : List Char) :
    ∀ rows : List Row, (rows.map f).find? (fun r => r.id = id) =
      (rows.find? (fun r => r.id = id)).map f := by
  intro rows
  induction rows with
  | nil => rfl
  | cons r rest ih =>
    rw [List.map_cons]
    by_cases h : r.id = id
    · have h1 : (f r :: rest.map f).find? (fun r => r.id = id) = some (f r) :=
        List.find?_cons_of_pos _ (by simp [hf, h])
      have h2 : (r :: rest).find? (fun r => r.id = id) = some r :=
        List.find?_cons_of_pos _ (by simp [h])
      rw [h1, h2]
      rfl
    · have h1 : (f r :: rest.map f).find? (fun r => r.id = id) =
          (rest.map f).find? (fun r => r.id = id) :=
        List.find?_cons_of_neg _ (by simp [hf, h])
      have h2 : (r :: rest).find? (fun r => r.id = id) =
          rest.find? (fun r => r.id = id) :=
        List.find?_cons_of_neg _ (by simp [h])
      rw [h1, h2]
      exact ih

theorem findById_updateStatus (now : Nat) (id : List Char) (st : CStatus)
    (m : Option (List Char)) (db : DB) :
    findById id (updateStatus now id st m db) =
      (findById id db).map (fun r =>
        (⟨r.id, r.rtype, r.url, r.title, r.description, r.contentPreview,
          r.imageUrl, st,
          (match m with
            | some mm => if 0 < mm.length then some mm else none
            | none => none),
          r.processingAttempts + 1, r.createdAt, now,
          if st = CStatus.completed then some now else none⟩ : Row)) := by
  have h1 : findById id (updateStatus now id st m db) =
      (findById id db).map (fun r =>
        if r.id = id then
          (⟨r.id, r.rtype, r.url, r.title, r.description, r.contentPreview,
            r.imageUrl, st,
            (match m with
              | some mm => if 0 < mm.length then some mm else none
              | none => none),
            r.processingAttempts + 1, r.createdAt, now,
            if st = CStatus.completed then some now else none⟩ : Row)
        else r) :=
    find?_id_map _ (fun r => by by_cases h : r.id = id <;> simp [h]) id
      db.rows
  rw [h1]
  cases he : findById id db with
  | none => rfl
  | some r0 =>
    have hid : r0.id = id := by
      have := List.find?_some he
      simpa using this
    show some (if r0.id = id then _ else r0) = some _
    rw [if_pos hid]

theorem findById_updateRow (now : Nat) (id : List Char) (p : RowPatch)
    (db : DB) :
    findById id (updateRow now id p db) =
      (findById id db).map (fun r =>
        (⟨r.id, r.rtype, r.url, p.title.getD r.title,
          p.description.getD r.description,
          p.contentPreview.getD r.contentPreview,
          p.imageUrl.getD r.imageUrl, p.status.getD r.status,
          p.errorMessage.getD r.errorMessage, r.processingAttempts,
          r.createdAt, now, p.completedAt.getD r.completedAt⟩ : Row)) := by
  have h1 : findById id (updateRow now id p db) =
      (findById id db).map (fun r =>
        if r.id = id then
          (⟨r.id, r.rtype, r.url, p.title.getD r.title,
            p.description.getD r.description,
            p.contentPreview.getD r.contentPreview,
            p.imageUrl.getD r.imageUrl, p.status.getD r.status,
            p.errorMessage.getD r.errorMessage, r.processingAttempts,
            r.createdAt, now, p.completedAt.getD r.completedAt⟩ : Row)
        else r) :=
    find?_id_map _ (fun r => by by_cases h : r.id = id <;> simp [h]) id
      db.rows
  rw [h1]
  cases he : findById id db with
  | none => rfl
  | some r0 =>
    have hid : r0.id = id := by
      have := List.find?_some he
      simpa using this
    show some (if r0.id = id then _ else r0) = some _
    rw [if_pos hid]

theorem findById_rows_eq {id : List Char} {db db' : DB}
    (h : db'.rows = db.rows) : findById id db' = findById id db := by
  unfold findById
  rw [h]

theorem findById_deleteChunks (id cid : List Char) (db : DB) :
    findById id (deleteChunks cid db) = findById id db := rfl

theorem createChunksOp_rows {cid : List Char} {cd : List NewChunk}
    {db db' : DB} (h : createChunksOp cid cd db = Except.ok db') :
    db'.rows = db.rows := by
  simp only [createChunksOp] at h
  split at h
  · cases h
  · rw [← Except.ok.inj h]

/-- Totality and attempt-counter tracking for the post-gate pipeline of
`retryFailedContent`: whatever the extraction, embedding and chunk-insert
results, the pipeline returns, and the item's attempt counter is unchanged
(success) or incremented once more (the catch path's
`updateStatus('failed')`). -/
theorem retryPipeline_attempts (env : UrlEnv) (now : Nat)
    (contentId : List Char) (db1 : DB) (r1 : Row)
    (h1 : findById contentId db1 = some r1) :
    ∃ res db', retryPipeline env now contentId db1 = some (res, db') ∧
      ∃ r', findById contentId db' = some r' ∧
        (r'.processingAttempts = r1.processingAttempts ∨
         r'.processingAttempts = r1.processingAttempts + 1) := by
  cases hex : env.extract with
  | error e =>
    have heq : retryPipeline env now contentId db1 =
        some (Except.error ("Failed to retry content: ".data ++ e),
          updateStatus now contentId CStatus.failed (some e) db1) := by
      simp only [retryPipeline, hex]
    refine ⟨_, _, heq, ?_⟩
    rw [findById_updateStatus now contentId CStatus.failed (some e) db1, h1]
    exact ⟨_, rfl, Or.inr rfl⟩
  | ok ex =>
    have h3 : findById contentId (deleteChunks contentId
        (updateRow now contentId
          ⟨some ex.title, some ex.description, some (some (ex.content.take 500)),
            some ex.thumbnail, some CStatus.completed, some none, none⟩ db1)) =
        some (⟨r1.id, r1.rtype, r1.url, ex.title, ex.description,
          some (ex.content.take 500), ex.thumbnail, CStatus.completed, none,
          r1.processingAttempts, r1.createdAt, now, r1.completedAt⟩ : Row) := by
      rw [findById_deleteChunks, findById_updateRow, h1]
      rfl
    obtain ⟨tcs, htcs⟩ : ∃ tcs,
        (if 5000 < (ex.title ++ '\n' :: ex.description ++ '\n' ::
            ex.content).length then
          chunkDocument (ex.title ++ '\n' :: ex.description ++ '\n' ::
            ex.content) 2000 200 true
        else chunkText (ex.title ++ '\n' :: ex.description ++ '\n' ::
            ex.content) 1000 100) = some tcs := by
      by_cases hlen : 5000 < (ex.title ++ '\n' :: ex.description ++ '\n' ::
          ex.content).length
      · rw [if_pos hlen]
        exact chunkDocument_total _ 2000 200 true (by omega)
      · rw [if_neg hlen]
        exact chunkText_total _ 1000 100 (by omega)
    cases hemb : generateEmbeddings env.embedMany 5
        (tcs.map fun c => c.content) with
    | error e =>
      have heq : retryPipeline env now contentId db1 =
          some (Except.error ("Failed to retry content: ".data ++ e),
            updateStatus now contentId CStatus.failed (some e)
              (deleteChunks contentId (updateRow now contentId
                ⟨some ex.title, some ex.description,
                  some (some (ex.content.take 500)), some ex.thumbnail,
                  some CStatus.completed, some none, none⟩ db1))) := by
        simp only [retryPipeline, hex, htcs, hemb]
      refine ⟨_, _, heq, ?_⟩
      rw [findById_updateStatus, h3]
      exact ⟨_, rfl, Or.inr rfl⟩
    | ok embs =>
      cases hcc : createChunksOp contentId (chunkRowsOf tcs embs)
          (deleteChunks contentId (updateRow now contentId
            ⟨some ex.title, some ex.description,
              some (some (ex.content.take 500)), some ex.thumbnail,
              some CStatus.completed, some none, none⟩ db1)) with
      | error ce =>
        have heq : retryPipeline env now contentId db1 =
            some (Except.error ("Failed to retry content: ".data ++ ce),
              updateStatus now contentId CStatus.failed (some ce)
                (deleteChunks contentId (updateRow now contentId
                  ⟨some ex.title, some ex.description,
                    some (some (ex.content.take 500)), some ex.thumbnail,
                    some CStatus.completed, some none, none⟩ db1))) := by
          simp only [retryPipeline, hex, htcs, hemb, hcc]
        refine ⟨_, _, heq, ?_⟩
        rw [findById_updateStatus, h3]
        exact ⟨_, rfl, Or.inr rfl⟩
      | ok db4 =>
        have heq : retryPipeline env now contentId db1 =
            some (Except.ok tcs.length, db4) := by
          simp only [retryPipeline, hex, htcs, hemb, hcc]
        refine ⟨_, _, heq, ?_⟩
        rw [findById_rows_eq (createChunksOp_rows hcc), h3]
        exact ⟨_, rfl, Or.inl rfl⟩

/-- Claim C9: `retryFailedContent` re-processes a content item exactly when
the item exists, its status is `failed`, and it has a (truthy) source URL
and is not of type `image`; a missing id, a non-`failed` item, and an image
or URL-less item are each rejected with the corresponding error and the
state is unchanged.  When the gate passes, the item's status is first set to
`processing` (incrementing the attempt counter) and the pipeline body runs:
the call always returns and leaves the item's attempt counter at one or two
above its previous value (one on success, two when a stage throws and the
catch records `failed`). -/
theorem c9_retry_gating (env : UrlEnv) (now : Nat) (contentId : List Char)
    (db : DB) :
    (findById contentId db = none →
      retryFailedContent env now contentId db =
        some (Except.error ("Content not found".data), db)) ∧
    (∀ r, findById contentId db = some r → r.status ≠ CStatus.failed →
      retryFailedContent env now contentId db =
        some (Except.error ("Content is not in failed state".data), db)) ∧
    (∀ r, findById contentId db = some r → r.status = CStatus.failed →
      (r.rtype = CType.image ∨ truthyStr r.url = false) →
      retryFailedContent env now contentId db =
        some (Except.error ("Image content requires re-upload to retry".data),
          db)) ∧
    (∀ r, findById contentId db = some r → r.status = CStatus.failed →
      ¬(r.rtype = CType.image) → truthyStr r.url = true →
      retryFailedContent env now contentId db =
        retryPipeline env now contentId
          (updateStatus now contentId CStatus.processing none db) ∧
      ∃ res db', retryFailedContent env now contentId db =
        some (res, db') ∧ ∃ r', findById contentId db' = some r' ∧
        (r'.processingAttempts = r.processingAttempts + 1 ∨
         r'.processingAttempts = r.processingAttempts + 2)) := by
  refine ⟨?_, ?_, ?_, ?_⟩
  · intro h
    simp only [retryFailedContent, h]
  · intro r hr hs
    simp only [retryFailedContent, hr]
    rw [if_pos hs]
  · intro r hr hs hgate
    simp only [retryFailedContent, hr]
    rw [if_neg (by simp [hs])]
    rw [if_pos (by
      rcases hgate with h | h
      · exact Or.inl h
      · exact Or.inr (by simp [h]))]
  · intro r hr hs himg hurl
    have hgeq : retryFailedContent env now contentId db =
        retryPipeline env now contentId
          (updateStatus now contentId CStatus.processing none db) := by
      simp only [retryFailedContent, hr]
      rw [if_neg (by simp [hs])]
      rw [if_neg (by
        intro hc
        rcases hc with h | h
        · exact himg h
        · rw [hurl] at h
          cases h)]
    refine ⟨hgeq, ?_⟩
    have h1 : findById contentId
        (updateStatus now contentId CStatus.processing none db) =
        some (⟨r.id, r.rtype, r.url, r.title, r.description,
          r.contentPreview, r.imageUrl, CStatus.processing, none,
          r.processingAttempts + 1, r.createdAt, now, none⟩ : Row) := by
      rw [findById_updateStatus, hr]
      rfl
    obtain ⟨res, db', heq, r', hr', hatt⟩ := retryPipeline_attempts env now
      contentId (updateStatus now contentId CStatus.processing none db) _ h1
    refine ⟨res, db', by rw [hgeq]; exact heq, r', hr', ?_⟩
    rcases hatt with h | h
    · exact Or.inl h
    · exact Or.inr h

/-- Witness for `c9_retry_gating`: all four gate outcomes on the concrete
store `retryDB` (missing id `Z`, completed row `A`, image row `I`, failed
URL row `F` with a failing extraction environment). -/
theorem c9_retry_gating_witness :
    (findById ("Z".data) retryDB = none ∧
      retryFailedContent failingEnv 9 ("Z".data) retryDB =
        some (Except.error ("Content not found".data), retryDB)) ∧
    (findById ("A".data) retryDB = some rowA ∧
      retryFailedContent failingEnv 9 ("A".data) retryDB =
        some (Except.error ("Content is not in failed state".data),
          retryDB)) ∧
    (findById ("I".data) retryDB = some rowI ∧
      retryFailedContent failingEnv 9 ("I".data) retryDB =
        some (Except.error ("Image content requires re-upload to retry".data),
          retryDB)) ∧
    (findById ("F".data) retryDB = some rowF ∧
      retryFailedContent failingEnv 9 ("F".data) retryDB =
        retryPipeline failingEnv 9 ("F".data)
          (updateStatus 9 ("F".data) CStatus.processing none retryDB) ∧
      ∃ res db', retryFailedContent failingEnv 9 ("F".data) retryDB =
        some (res, db') ∧ ∃ r', findById ("F".data) db' = some r' ∧
        (r'.processingAttempts = rowF.processingAttempts + 1 ∨
         r'.processingAttempts = rowF.processingAttempts + 2)) := by
  refine ⟨⟨by decide, (c9_retry_gating failingEnv 9 ("Z".data) retryDB).1
    (by decide)⟩, ⟨by decide, (c9_retry_gating failingEnv 9 ("A".data)
      retryDB).2.1 rowA (by decide) (by decide)⟩,
    ⟨by decide, (c9_retry_gating failingEnv 9 ("I".data) retryDB).2.2.1 rowI
      (by decide) (by decide) (Or.inl (by decide))⟩,
    ⟨by decide, (c9_retry_gating failingEnv 9 ("F".data) retryDB).2.2.2 rowF
      (by decide) (by decide) (by decide) (by decide)⟩⟩

/-! ### Claim C5: failure recording of the ingestion services -/

theorem find?_append_none {p : Row → Bool} {l1 : List Row}
    (h : ∀ r ∈ l1, ¬(p r = true)) (l2 : List Row) :
    (l1 ++ l2).find? p = l2.find? p := by
  induction l1 with
  | nil => rfl
  | cons a t ih =>
    rw [List.cons_append, List.find?_cons_of_neg _ (h a (by simp))]
    exact ih (fun r hr => h r (by simp [hr]))

theorem createRow_fresh (now : Nat) (d : NewRow) (db : DB)
    (h : ∀ r ∈ db.rows, ¬(r.id = d.id)) :
    createRow now d db = Except.ok
      ⟨db.rows ++ [⟨d.id, d.rtype, d.url, d.title, d.description,
        d.contentPreview, d.imageUrl, d.status, d.errorMessage, 0, now, now,
        d.completedAt⟩], db.chunks⟩ := by
  unfold createRow
  rw [if_neg (fun hc => by
    simp only [List.any_eq_true, decide_eq_true_eq] at hc
    obtain ⟨r, hm, hp⟩ := hc
    exact h r hm hp)]

theorem createRow_dup (now : Nat) (d : NewRow) (db : DB)
    (h : db.rows.any (fun r => r.id = d.id) = true) :
    createRow now d db =
      Except.error ("duplicate key value violates unique constraint".data) := by
  unfold createRow
  rw [if_pos h]

theorem recordUrlFailure_fresh (now : Nat) (cid : List Char) (isYT : Bool)
    (url msg : List Char) (db : DB) (h : ∀ r ∈ db.rows, ¬(r.id = cid)) :
    recordUrlFailure now cid isYT url msg db =
      ⟨db.rows ++ [⟨cid, (if isYT then CType.youtube else CType.webpage),
        some url, "Failed to process".data, "Content extraction failed".data,
        none, none, CStatus.failed, some msg, 0, now, now, none⟩],
       db.chunks⟩ := by
  unfold recordUrlFailure
  rw [createRow_fresh now _ db h]

theorem recordUrlFailure_dup (now : Nat) (cid : List Char) (isYT : Bool)
    (url msg : List Char) (db : DB)
    (h : db.rows.any (fun r => r.id = cid) = true) :
    recordUrlFailure now cid isYT url msg db = db := by
  unfold recordUrlFailure
  rw [createRow_dup now _ db h]

theorem recordImageFailure_fresh (now : Nat) (cid filename msg : List Char)
    (db : DB) (h : ∀ r ∈ db.rows, ¬(r.id = cid)) :
    recordImageFailure now cid filename msg db =
      ⟨db.rows ++ [⟨cid, CType.image, none, filename,
        "Failed to process".data, none, none, CStatus.failed, some msg, 0,
        now, now, none⟩], db.chunks⟩ := by
  unfold recordImageFailure
  rw [createRow_fresh now _ db h]

theorem findById_append_fresh (cid : List Char) (rows : List Row)
    (row : Row) (chunks : List ChunkRow) (h : ∀ r ∈ rows, ¬(r.id = cid))
    (hrow : row.id = cid) :
    findById cid ⟨rows ++ [row], chunks⟩ = some row := by
  show (rows ++ [row]).find? (fun r => r.id = cid) = some row
  rw [find?_append_none (fun r hr => by simpa using h r hr) [row]]
  exact List.find?_cons_of_pos _ (by simp [hrow])

theorem chunkChoice_total (ft : List Char) :
    ∃ tcs, (if 5000 < ft.length then chunkDocument ft 2000 200 true
            else chunkText ft 1000 100) = some tcs := by
  by_cases hlen : 5000 < ft.length
  · rw [if_pos hlen]
    exact chunkDocument_total ft 2000 200 true (by omega)
  · rw [if_neg hlen]
    exact chunkText_total ft 1000 100 (by omega)

/-- Counterexample to claim C5: `processUrl` with a successful extraction and
content-row insert but a failing embedding provider.  The embedding stage
throws, yet the item ends `completed` (not `failed`) with no error message
and `processing_attempts = 0`: the catch block's failure-record `create`
collides with the already-inserted primary key (the row was created with
status `completed` before the throwing stage) and that collision is
swallowed, so no `failed` status and no incremented attempt counter are ever
persisted for the item. -/
theorem c5_counterexample :
    ((processUrl embedFailEnv 9 ("N".data) ("https://x.example/p".data) none
        ⟨[], []⟩).map fun out =>
      (out.1.toOption.isSome,
        (findById ("N".data) out.2).map fun r =>
          (r.status, r.errorMessage, r.processingAttempts))) =
      some (false, some (CStatus.completed, none, 0)) := by rfl

/-- Claim C5 (amended): failure recording of the ingestion services, for an id
fresh in the store (the services always mint a fresh nanoid).  (i) When
extraction throws in `processUrl`, the catch block persists a fresh `failed`
row carrying the error message, with `processing_attempts` at its default 0
(no counter is incremented), and re-throws a wrapping error.  (ii) When a
stage throws after the content row was already inserted as `completed` — here
the embedding provider — the catch block's failure-record `create` collides
with the already-taken primary key; that secondary failure is swallowed (the
re-thrown error is still the embedding one), and the item remains `completed`
with no error message and `processing_attempts = 0`: it is not persisted as
`failed`.  (iii) When analysis throws in `processImage`, a fresh `failed` row
with the message is persisted and a `success = false` output is returned
without re-throwing.  (iv) When extraction throws during a retry of an
existing `failed` item, the catch sets the item back to `failed` with the
message (an empty message stores null) and the attempt counter ends two above
its starting value (one increment from the `processing` update, one from the
`failed` update). -/
theorem c5_failure_recording (now : Nat) (contentId url : List Char)
    (userNote : Option (List Char)) (db : DB) :
    ((∀ r ∈ db.rows, ¬(r.id = contentId)) →
      (∀ env : UrlEnv, ∀ e, env.extract = Except.error e →
        ∃ db', processUrl env now contentId url userNote db =
            some (Except.error ("Failed to process URL: ".data ++ e), db') ∧
          findById contentId db' = some
            ⟨contentId,
              (if isYouTubeUrl url then CType.youtube else CType.webpage),
              some url, "Failed to process".data,
              "Content extraction failed".data, none, none, CStatus.failed,
              some e, 0, now, now, none⟩) ∧
      (∀ env : UrlEnv, ∀ ex e, env.extract = Except.ok ex →
        (∀ p ts, env.embedMany p ts = Except.error e) →
        ∃ db', processUrl env now contentId url userNote db =
            some (Except.error ("Failed to process URL: ".data ++
              ("Failed to generate embeddings: ".data ++ e)), db') ∧
          findById contentId db' = some
            ⟨contentId,
              (if isYouTubeUrl url then CType.youtube else CType.webpage),
              some url,
              (if 0 < ex.title.length then ex.title else "Untitled".data),
              ex.description, some (ex.content.take 500), ex.thumbnail,
              CStatus.completed, none, 0, now, now, none⟩) ∧
      (∀ env : ImageEnv, ∀ b e filename context,
        env.blobUrl = Except.ok b → env.analysis = Except.error e →
        ∃ db', processImage env now contentId filename context db =
            some (⟨false, contentId, none, some e⟩, db') ∧
          findById contentId db' = some
            ⟨contentId, CType.image, none, filename,
              "Failed to process".data, none, none, CStatus.failed, some e,
              0, now, now, none⟩)) ∧
    (∀ env : UrlEnv, ∀ r e, findById contentId db = some r →
      r.status = CStatus.failed → ¬(r.rtype = CType.image) →
      truthyStr r.url = true → env.extract = Except.error e →
      ∃ db', retryFailedContent env now contentId db =
          some (Except.error ("Failed to retry content: ".data ++ e), db') ∧
        ∃ r', findById contentId db' = some r' ∧
          r'.status = CStatus.failed ∧
          r'.errorMessage = (if 0 < e.length then some e else none) ∧
          r'.processingAttempts = r.processingAttempts + 2) := by
  refine ⟨fun hfresh => ⟨?_, ?_, ?_⟩, ?_⟩
  · intro env e hex
    have heq : processUrl env now contentId url userNote db =
        some (Except.error ("Failed to process URL: ".data ++ e),
          recordUrlFailure now contentId (isYouTubeUrl url) url e db) := by
      simp only [processUrl, hex]
    rw [recordUrlFailure_fresh now contentId (isYouTubeUrl url) url e db
      hfresh] at heq
    exact ⟨_, heq, findById_append_fresh _ _ _ _ hfresh rfl⟩
  · intro env ex e hex hEM
    have hcr := createRow_fresh now
      ⟨contentId,
        (if isYouTubeUrl url then CType.youtube else CType.webpage),
        some url,
        (if 0 < ex.title.length then ex.title else "Untitled".data),
        ex.description, some (ex.content.take 500), ex.thumbnail,
        CStatus.completed, none, none⟩ db hfresh
    cases userNote with
    | none =>
      obtain ⟨tcs, htcs⟩ := chunkChoice_total
        ((if 0 < ex.title.length then ex.title else "Untitled".data) ++
          '\n' :: ex.description ++ '\n' :: ex.content)
      have hge : generateEmbeddings env.embedMany 5
          (tcs.map fun c => c.content) =
          Except.error ("Failed to generate embeddings: ".data ++ e) := by
        unfold generateEmbeddings
        rw [hEM]
      have heq : processUrl env now contentId url none db =
          some (Except.error ("Failed to process URL: ".data ++
              ("Failed to generate embeddings: ".data ++ e)),
            recordUrlFailure now contentId (isYouTubeUrl url) url
              ("Failed to generate embeddings: ".data ++ e)
              ⟨db.rows ++ [⟨contentId,
                (if isYouTubeUrl url then CType.youtube else CType.webpage),
                some url,
                (if 0 < ex.title.length then ex.title else "Untitled".data),
                ex.description, some (ex.content.take 500), ex.thumbnail,
                CStatus.completed, none, 0, now, now, none⟩], db.chunks⟩) := by
        simp only [processUrl, hex, hcr, htcs, hge]
      have hsw : recordUrlFailure now contentId (isYouTubeUrl url) url
          ("Failed to generate embeddings: ".data ++ e)
          ⟨db.rows ++ [⟨contentId,
            (if isYouTubeUrl url then CType.youtube else CType.webpage),
            some url,
            (if 0 < ex.title.length then ex.title else "Untitled".data),
            ex.description, some (ex.content.take 500), ex.thumbnail,
            CStatus.completed, none, 0, now, now, none⟩], db.chunks⟩ =
          ⟨db.rows ++ [⟨contentId,
            (if isYouTubeUrl url then CType.youtube else CType.webpage),
            some url,
            (if 0 < ex.title.length then ex.title else "Untitled".data),
            ex.description, some (ex.content.take 500), ex.thumbnail,
            CStatus.completed, none, 0, now, now, none⟩], db.chunks⟩ :=
        recordUrlFailure_dup _ _ _ _ _ _ (by simp)
      rw [hsw] at heq
      exact ⟨_, heq, findById_append_fresh _ _ _ _ hfresh rfl⟩
    | some n =>
      obtain ⟨tcs, htcs⟩ := chunkChoice_total
        (n ++ '\n' ::
          (if 0 < ex.title.length then ex.title else "Untitled".data) ++
          '\n' :: ex.description ++ '\n' :: ex.content)
      have hge : generateEmbeddings env.embedMany 5
          (tcs.map fun c => c.content) =
          Except.error ("Failed to generate embeddings: ".data ++ e) := by
        unfold generateEmbeddings
        rw [hEM]
      have heq : processUrl env now contentId url (some n) db =
          some (Except.error ("Failed to process URL: ".data ++
              ("Failed to generate embeddings: ".data ++ e)),
            recordUrlFailure now contentId (isYouTubeUrl url) url
              ("Failed to generate embeddings: ".data ++ e)
              ⟨db.rows ++ [⟨contentId,
                (if isYouTubeUrl url then CType.youtube else CType.webpage),
                some url,
                (if 0 < ex.title.length then ex.title else "Untitled".data),
                ex.description, some (ex.content.take 500), ex.thumbnail,
                CStatus.completed, none, 0, now, now, none⟩], db.chunks⟩) := by
        simp only [processUrl, hex, hcr, htcs, hge]
      have hsw : recordUrlFailure now contentId (isYouTubeUrl url) url
          ("Failed to generate embeddings: ".data ++ e)
          ⟨db.rows ++ [⟨contentId,
            (if isYouTubeUrl url then CType.youtube else CType.webpage),
            some url,
            (if 0 < ex.title.length then ex.title else "Untitled".data),
            ex.description, some (ex.content.take 500), ex.thumbnail,
            CStatus.completed, none, 0, now, now, none⟩], db.chunks⟩ =
          ⟨db.rows ++ [⟨contentId,
            (if isYouTubeUrl url then CType.youtube else CType.webpage),
            some url,
            (if 0 < ex.title.length then ex.title else "Untitled".data),
            ex.description, some (ex.content.take 500), ex.thumbnail,
            CStatus.completed, none, 0, now, now, none⟩], db.chunks⟩ :=
        recordUrlFailure_dup _ _ _ _ _ _ (by simp)
      rw [hsw] at heq
      exact ⟨_, heq, findById_append_fresh _ _ _ _ hfresh rfl⟩
  · intro env b e filename context hblob hana
    have heq : processImage env now contentId filename context db =
        some (⟨false, contentId, none, some e⟩,
          recordImageFailure now contentId filename e db) := by
      simp only [processImage, hblob, hana]
    rw [recordImageFailure_fresh now contentId filename e db hfresh] at heq
    exact ⟨_, heq, findById_append_fresh _ _ _ _ hfresh rfl⟩
  · intro env r e hr hs himg hurl hex
    have hgeq : retryFailedContent env now contentId db =
        retryPipeline env now contentId
          (updateStatus now contentId CStatus.processing none db) := by
      simp only [retryFailedContent, hr]
      rw [if_neg (by simp [hs])]
      rw [if_neg (by
        intro hc
        rcases hc with h | h
        · exact himg h
        · rw [hurl] at h
          cases h)]
    have heq : retryPipeline env now contentId
        (updateStatus now contentId CStatus.processing none db) =
        some (Except.error ("Failed to retry content: ".data ++ e),
          updateStatus now contentId CStatus.failed (some e)
            (updateStatus now contentId CStatus.processing none db)) := by
      simp only [retryPipeline, hex]
    refine ⟨_, by rw [hgeq, heq], ?_⟩
    rw [findById_updateStatus, findById_updateStatus, hr]
    exact ⟨_, rfl, rfl, rfl, rfl⟩

/-- Witness for `c5_failure_recording`: the four failure scenarios on concrete
fixtures — extraction failure (`failingEnv`) and embedding failure
(`embedFailEnv`) of `processUrl` on an empty store, analysis failure
(`imgFailEnv`) of `processImage`, and extraction failure of a retry of the
`failed` row `F` of `retryDB`. -/
theorem c5_failure_recording_witness :
    ((∃ db', processUrl failingEnv 9 ("N".data) ("https://u.example/p".data)
        none ⟨[], []⟩ =
        some (Except.error ("Failed to process URL: fetch failed".data),
          db') ∧
      findById ("N".data) db' = some
        ⟨"N".data, CType.webpage, some "https://u.example/p".data,
          "Failed to process".data, "Content extraction failed".data, none,
          none, CStatus.failed, some "fetch failed".data, 0, 9, 9, none⟩) ∧
     (∃ db', processUrl embedFailEnv 9 ("N".data)
        ("https://u.example/p".data) none ⟨[], []⟩ =
        some (Except.error
          ("Failed to process URL: Failed to generate embeddings: prov down".data),
          db') ∧
      findById ("N".data) db' = some
        ⟨"N".data, CType.webpage, some "https://u.example/p".data, "T".data,
          "D".data, some "body".data, none, CStatus.completed, none, 0, 9, 9,
          none⟩) ∧
     (∃ db', processImage imgFailEnv 9 ("N".data) ("pic.png".data) none
        ⟨[], []⟩ =
        some (⟨false, "N".data, none, some "no caption".data⟩, db') ∧
      findById ("N".data) db' = some
        ⟨"N".data, CType.image, none, "pic.png".data,
          "Failed to process".data, none, none, CStatus.failed,
          some "no caption".data, 0, 9, 9, none⟩)) ∧
    (∃ db', retryFailedContent failingEnv 9 ("F".data) retryDB =
        some (Except.error ("Failed to retry content: fetch failed".data),
          db') ∧
      ∃ r', findById ("F".data) db' = some r' ∧
        r'.status = CStatus.failed ∧
        r'.errorMessage = some "fetch failed".data ∧
        r'.processingAttempts = rowF.processingAttempts + 2) :=
  ⟨⟨((c5_failure_recording 9 ("N".data) ("https://u.example/p".data) none
      ⟨[], []⟩).1 (by decide)).1 failingEnv ("fetch failed".data) rfl,
    ((c5_failure_recording 9 ("N".data) ("https://u.example/p".data) none
      ⟨[], []⟩).1 (by decide)).2.1 embedFailEnv
      ⟨"T".data, "D".data, "body".data, none⟩ ("prov down".data) rfl
      (fun _ _ => rfl),
    ((c5_failure_recording 9 ("N".data) ("https://u.example/p".data) none
      ⟨[], []⟩).1 (by decide)).2.2 imgFailEnv ("https://blob.example/i".data)
      ("no caption".data) ("pic.png".data) none rfl rfl⟩,
   (c5_failure_recording 9 ("F".data) [] none retryDB).2 failingEnv rowF
     ("fetch failed".data) (by decide) (by decide) (by decide) (by decide)
     rfl⟩

end Penny
